import Mathlib

/-!
# Serverless banking: the account repository and the transfer coordinator

A shallow embedding of `repo/repo.go` (and of the guards of `handlers/handler.go`).

* A Go `int64` is an `Int` kept in range by `wrapInt64` after every addition and
  subtraction the source performs.
* A Go `error` is its message (`String`); `nil` is `none`.
* The DynamoDB client (`dynamodbiface.DynamoDBAPI`) is an external collaborator.  It is
  modelled by `Client`: the items of the users table, keyed by their `email` attribute, and a
  script of the outcomes of the calls still to come, so that a store failure can be injected at
  any call.  A failed `PutItem` writes nothing.  The `tableName` argument, passed unchanged to
  every call, is left out: a `Client` stands for the client restricted to that one table.
* The repository tells an absent account by the empty `Email` of the fetched record, so an
  account is present when an item is stored under its key and the key is not empty.
* The two fetch goroutines of a transfer race.  `TransferToAccount` takes the resolution of
  the race as an argument (`Sched`); the step model of the last sections (`Call.step`,
  `Pair.step`) makes every goroutine, channel operation and store call a move of its own.
-/

namespace Banking

/-! ## Data model -/

/-- Go `int64` arithmetic: the result of an addition or subtraction reduced to the range
`-2^63 .. 2^63 - 1` (two's complement wrap-around). -/
def wrapInt64 (x : Int) : Int := (x + 2 ^ 63) % 2 ^ 64 - 2 ^ 63

/-- The values an `int64` can hold. -/
def isInt64 (x : Int) : Prop := -(2 ^ 63) ≤ x ∧ x < 2 ^ 63

instance (x : Int) : Decidable (isInt64 x) := by unfold isInt64; infer_instance

/-- The record `repo.User`. -/
structure User where
  Email : String
  FullName : String
  CreatedAt : String
  Balance : Int
deriving DecidableEq

/-- The value `new(User)` holds: every field zero. -/
def User.zero : User := ⟨"", "", "", 0⟩

def ErrUserAlreadyExists : String := "User already exists"
def ErrUserDoesNotExist : String := "User does not exist"
def ErrInsufficientBalance : String := "Insufficient Balance"

/-! ## The store client -/

/-- The DynamoDB client seen through `GetItem` and `PutItem` on the users table.
`table` holds the stored items; `faults` scripts the calls to come (each call consumes the
head: `some e` makes it fail with `e`, `none` or an exhausted script lets it succeed);
`puts` counts the `PutItem` requests issued so far. -/
structure Client where
  table : List User
  faults : List (Option String)
  puts : Nat
deriving DecidableEq

/-- The item stored under a key, if any. -/
def lookup (table : List User) (key : String) : Option User :=
  table.find? (fun u => u.Email == key)

/-- The table after an item is written under its `email` key: it replaces the item stored
under that key, or is added when there is none. -/
def store (table : List User) (item : User) : List User :=
  if (lookup table item.Email).isSome then
    table.map (fun u => if u.Email == item.Email then item else u)
  else
    table ++ [item]

/-- `client.GetItem` for a key: the scripted failure, or the stored item (`none` when the key
has no item). It never changes the table. -/
def Client.GetItem (c : Client) (key : String) : Except String (Option User) × Client :=
  match c.faults with
  | some e :: rest => (.error e, ⟨c.table, rest, c.puts⟩)
  | none :: rest => (.ok (lookup c.table key), ⟨c.table, rest, c.puts⟩)
  | [] => (.ok (lookup c.table key), c)

/-- `client.PutItem` of an item: the scripted failure, which writes nothing, or the write. -/
def Client.PutItem (c : Client) (item : User) : Option String × Client :=
  match c.faults with
  | some e :: rest => (some e, ⟨c.table, rest, c.puts + 1⟩)
  | none :: rest => (none, ⟨store c.table item, rest, c.puts + 1⟩)
  | [] => (none, ⟨store c.table item, [], c.puts + 1⟩)

/-! ## The repository (`repo/repo.go`) -/

/-- `FetchUser`: `GetItem`, then `UnmarshalMap` into `new(User)`. A missing item unmarshals to
the zero record, so "absent" is a record whose `Email` is empty. The records of the table are
typed, so unmarshalling does not fail. -/
def FetchUser (email : String) (client : Client) : Except String User × Client :=
  match client.GetItem email with
  | (.error err, c) => (.error err, c)
  | (.ok item, c) => (.ok (item.getD User.zero), c)

/-- `CreateUser`; `now` is `time.Now().Format(timeFormat)`. -/
def CreateUser (user : User) (now : String) (client : Client) : Except String User × Client :=
  match FetchUser user.Email client with
  | (.error err, c) => (.error err, c)
  | (.ok existingUser, c) =>
    if !existingUser.Email.isEmpty then
      (.error ErrUserAlreadyExists, c)
    else
      let user : User := ⟨user.Email, user.FullName, now, 0⟩
      match c.PutItem user with
      | (some err, c) => (.error err, c)
      | (none, c) => (.ok user, c)

/-- `UpdateUser`. -/
def UpdateUser (user : User) (client : Client) : Except String User × Client :=
  match FetchUser user.Email client with
  | (.error err, c) => (.error err, c)
  | (.ok existingUser, c) =>
    if existingUser.Email.isEmpty then
      (.error ErrUserDoesNotExist, c)
    else
      match c.PutItem user with
      | (some err, c) => (.error err, c)
      | (none, c) => (.ok user, c)

/-- `FundUserAccount`. -/
def FundUserAccount (email : String) (amount : Int) (client : Client) : Option String × Client :=
  match FetchUser email client with
  | (.error err, c) => (some err, c)
  | (.ok user, c) =>
    if user.Email.isEmpty then
      (some ErrUserDoesNotExist, c)
    else
      let user : User :=
        ⟨user.Email, user.FullName, user.CreatedAt, wrapInt64 (user.Balance + amount)⟩
      match UpdateUser user c with
      | (.error err, c) => (some err, c)
      | (.ok _, c) => (none, c)

/-- The not-found error a fetch goroutine builds with `fmt.Errorf`. -/
def notFound (email : String) : String := "User with email " ++ email ++ " not found"

/-- What one `fetchUserWithChannel` goroutine sends: the value for `errorChan` and the
pointer for its `userChan` (`none` is `nil`). -/
def fetchUserWithChannel (email : String) (client : Client) :
    (Option String × Option User) × Client :=
  match FetchUser email client with
  | (.error err, c) => ((some err, none), c)
  | (.ok user, c) =>
    if user.Email.isEmpty then
      ((some (notFound email), some user), c)
    else
      ((none, some user), c)

/-- How the scheduler resolved the race of the two fetch goroutines of one transfer: whose
`GetItem` reached the store first, and whose send on the shared `errorChan` was received
first. -/
structure Sched where
  senderFetchFirst : Bool
  senderErrFirst : Bool
deriving DecidableEq

/-- The two `go fetchUserWithChannel(...)` statements: both goroutines run their fetch against
the store, in the order the scheduler picks. The result holds what the sender's goroutine
sends, what the recipient's goroutine sends, and the client afterwards. -/
def fetchBoth (sched : Sched) (senderEmail recipientEmail : String) (client : Client) :
    (Option String × Option User) × (Option String × Option User) × Client :=
  if sched.senderFetchFirst then
    let (fs, c) := fetchUserWithChannel senderEmail client
    let (fr, c) := fetchUserWithChannel recipientEmail c
    (fs, fr, c)
  else
    let (fr, c) := fetchUserWithChannel recipientEmail client
    let (fs, c) := fetchUserWithChannel senderEmail c
    (fs, fr, c)

/-- `TransferToAccount`, run without interference from other callers, under a schedule of
its two fetch goroutines. The loop over `errorChan` returns the first non-nil error it
receives; the two users are received only after two nil errors. Both fetches are taken to
have reached the store when the call returns; the step model `Call.step` below does without
that, and the last section relates the two. A nil user after two nil errors cannot occur
(`fetchUserWithChannel_nil`); the last branch stands for the panic it would cause. -/
def TransferToAccount (sched : Sched) (senderEmail recipientEmail : String) (amount : Int)
    (client : Client) : Option String × Client :=
  let (fs, fr, c) := fetchBoth sched senderEmail recipientEmail client
  let (err1, err2) := if sched.senderErrFirst then (fs.1, fr.1) else (fr.1, fs.1)
  match err1 with
  | some err => (some err, c)
  | none =>
    match err2 with
    | some err => (some err, c)
    | none =>
      match fs.2, fr.2 with
      | some senderUser, some recipientUser =>
        if senderUser.Balance < amount then
          (some ErrInsufficientBalance, c)
        else
          let senderUser : User := ⟨senderUser.Email, senderUser.FullName,
            senderUser.CreatedAt, wrapInt64 (senderUser.Balance - amount)⟩
          let recipientUser : User := ⟨recipientUser.Email, recipientUser.FullName,
            recipientUser.CreatedAt, wrapInt64 (recipientUser.Balance + amount)⟩
          match UpdateUser senderUser c with
          | (.error err, c) => (some err, c)
          | (.ok _, c) =>
            match UpdateUser recipientUser c with
            | (.error err, c) => (some err, c)
            | (.ok _, c) => (none, c)
      | _, _ => (some "invalid memory address or nil pointer dereference", c)

/-- The sender's record after the debit `senderUser.Balance - amount`. -/
def debited (u : User) (amount : Int) : User :=
  ⟨u.Email, u.FullName, u.CreatedAt, wrapInt64 (u.Balance - amount)⟩

/-- A record after the credit `Balance + amount`. -/
def credited (u : User) (amount : Int) : User :=
  ⟨u.Email, u.FullName, u.CreatedAt, wrapInt64 (u.Balance + amount)⟩

/-- The part of `TransferToAccount` that follows the receipt of the two users: the balance
check, the two balance assignments and the two sequential updates. -/
def settle (senderUser recipientUser : User) (amount : Int) (c : Client) :
    Option String × Client :=
  if senderUser.Balance < amount then
    (some ErrInsufficientBalance, c)
  else
    match UpdateUser (debited senderUser amount) c with
    | (.error err, c) => (some err, c)
    | (.ok _, c) =>
      match UpdateUser (credited recipientUser amount) c with
      | (.error err, c) => (some err, c)
      | (.ok _, c) => (none, c)

/-- What a fetch goroutine can send on a healthy store for key `k` of table `t`: a nil error
with the stored item, or the not-found error of `k` when no item (or the empty key) is
fetched. -/
def FetchResult (t : List User) (k : String) (f : Option String × Option User) : Prop :=
  (∃ u, f = (none, some u) ∧ lookup t k = some u ∧ k ≠ "") ∨
  (∃ u, f = (some (notFound k), some u) ∧ (lookup t k = none ∨ k = ""))

/-- Two clients hold the same table and have issued the same number of writes. -/
def sameStore (c c' : Client) : Prop := c'.table = c.table ∧ c'.puts = c.puts

/-- No call to come is scripted to fail. -/
def Client.healthy (c : Client) : Prop := ∀ f ∈ c.faults, f = none

instance (c : Client) : Decidable c.healthy := by unfold Client.healthy; infer_instance

/-- Two accounts used in the concrete scenarios. -/
def alice (b : Int) : User := ⟨"alice@x.io", "Alice", "2024-01-01T00:00:00Z", b⟩

def bob (b : Int) : User := ⟨"bob@x.io", "Bob", "2024-01-02T00:00:00Z", b⟩

/-- A healthy store holding the two accounts with the given balances. -/
def ledger (a b : Int) : Client := ⟨[alice a, bob b], [], 0⟩

/-- The store alice 100, bob 50 whose sixth call, the `PutItem` of the recipient's update in
a transfer, is scripted to fail. -/
def flakyLedger : Client :=
  ⟨[alice 100, bob 50], [none, none, none, none, none, some "RequestLimitExceeded"], 0⟩

/-- `CreateUser` for the same record, once per timestamp of `nows`, one call after the
other; the outcomes are collected in order. -/
def createRepeatedly (user : User) : List String → Client → List (Except String User) × Client
  | [], c => ([], c)
  | now :: nows, c =>
    match CreateUser user now c with
    | (res, c1) =>
      match createRepeatedly user nows c1 with
      | (rest, c2) => (res :: rest, c2)

/-- The sum of all stored balances. -/
def total (t : List User) : Int := (t.map User.Balance).sum

/-! ## The transfer handler (`handlers/handler.go`) -/

/-- The request body of a transfer, `transferRequest`. -/
structure transferRequest where
  SenderEmail : String
  RecipientEmail : String
  Amount : Int
deriving DecidableEq

def ErrInvalidEmailAddress : String := "Invalid email address"
def ErrInvalidAmount : String := "Invalid amount"
def ErrInvalidRecipient : String := "Sender and recipient email cannot be same"
def MsgTransactionSuccessful : String := "Transaction successful"

/-- `BankingHandler.Transfer`: the status code and message of the response, and the client
afterwards. `body` is the outcome of `json.Unmarshal` on the request body. `IsEmailValid` is
`validators.IsEmailValid`, a function of another package: it is a parameter. -/
def BankingHandler.Transfer (IsEmailValid : String → Bool) (sched : Sched)
    (body : Except String transferRequest) (client : Client) : (Nat × String) × Client :=
  match body with
  | .error err => ((400, err), client)
  | .ok transferReq =>
    if !(IsEmailValid transferReq.SenderEmail) ||
        !(IsEmailValid transferReq.RecipientEmail) then
      ((400, ErrInvalidEmailAddress), client)
    else if transferReq.Amount ≤ 0 then
      ((400, ErrInvalidAmount), client)
    else if transferReq.SenderEmail == transferReq.RecipientEmail then
      ((400, ErrInvalidRecipient), client)
    else
      match TransferToAccount sched transferReq.SenderEmail transferReq.RecipientEmail
          transferReq.Amount client with
      | (some err, c) => ((500, err), c)
      | (none, c) => ((201, MsgTransactionSuccessful), c)

/-- The store holding only alice, with the largest `int64` balance. -/
def richLedger : Client := ⟨[alice (2 ^ 63 - 1)], [], 0⟩

/-! ## Sequential use of the repository -/

/-- One repository call of a sequential client. -/
inductive Op
  | create (user : User) (now : String)
  | fund (email : String) (amount : Int)
  | transfer (sched : Sched) (senderEmail recipientEmail : String) (amount : Int)
deriving DecidableEq

/-- The client after one call. -/
def Op.run : Op → Client → Client
  | .create user now, c => (CreateUser user now c).2
  | .fund email amount, c => (FundUserAccount email amount c).2
  | .transfer sched s r amount, c => (TransferToAccount sched s r amount c).2

/-- The client after a sequence of calls, run one at a time. -/
def runOps : List Op → Client → Client
  | [], c => c
  | op :: ops, c => runOps ops (op.run c)

/-- The amount of a funding or transfer is positive and, for a transfer, the two identifiers
differ (what the handlers enforce). -/
def Op.valid : Op → Prop
  | .create _ _ => True
  | .fund _ amount => 0 < amount
  | .transfer _ s r amount => 0 < amount ∧ s ≠ r

instance (op : Op) : Decidable op.valid := by
  cases op <;> unfold Op.valid <;> infer_instance

/-- Crediting `amount` to the record stored under `email`, if any, stays below `2^63`. -/
def fits (t : List User) (email : String) (amount : Int) : Bool :=
  match lookup t email with
  | some u => decide (u.Balance + amount < 2 ^ 63)
  | none => true

/-- The credit of a call, if it has one, does not overflow `int64` on the given store. -/
def Op.creditFits (c : Client) : Op → Bool
  | .create _ _ => true
  | .fund email amount => fits c.table email amount
  | .transfer _ _ r amount => fits c.table r amount

/-- No credit of the sequence overflows `int64` when the calls are run in order. -/
def creditsFit : List Op → Client → Bool
  | [], _ => true
  | op :: ops, c => op.creditFits c && creditsFit ops (op.run c)

/-- Every stored balance is a non-negative `int64`. -/
def nonNegative (t : List User) : Prop := ∀ u ∈ t, 0 ≤ u.Balance ∧ u.Balance < 2 ^ 63

instance (t : List User) : Decidable (nonNegative t) := by
  unfold nonNegative; infer_instance

/-- The healthy store with no account. -/
def emptyStore : Client := ⟨[], [], 0⟩

/-- Create alice, fund her with `2^63 - 1`, then fund her with 1. -/
def overflowingOps : List Op :=
  [.create (alice 0) "2024-01-01T00:00:00Z", .fund "alice@x.io" (2 ^ 63 - 1),
   .fund "alice@x.io" 1]

/-- Create alice and bob, fund alice with 100, transfer 30 from alice to bob. -/
def modestOps : List Op :=
  [.create (alice 7) "2024-01-01T00:00:00Z", .create (bob 9) "2024-01-02T00:00:00Z",
   .fund "alice@x.io" 100, .transfer ⟨true, true⟩ "alice@x.io" "bob@x.io" 30]

/-! ## One transfer, step by step

The goroutines of one `TransferToAccount` call and their unbuffered channels. A send and the
matching receive happen together; a goroutine whose partner never arrives stays where it is. -/

/-- A `fetchUserWithChannel` goroutine: not yet run; blocked on `errorChan <- err` (holding
the user it will send next); blocked on `userChan <- user`; returned. -/
inductive Task
  | start
  | sendErr (err : Option String) (user : Option User)
  | sendUser (user : Option User)
  | done
deriving DecidableEq

/-- The goroutine that runs `TransferToAccount`: blocked on `<-errorChan` in iteration `i` of
the loop; blocked on `<-senderUserChan`; blocked on `<-recipientUserChan`; before the
`GetItem` and before the `PutItem` of each of the two `UpdateUser` calls; returned. -/
inductive Coord
  | recvErr (i : Nat)
  | recvSender
  | recvRecipient (senderUser : Option User)
  | updSenderGet (senderUser recipientUser : User)
  | updSenderPut (senderUser recipientUser : User)
  | updRecipientGet (recipientUser : User)
  | updRecipientPut (recipientUser : User)
  | returned (err : Option String)
deriving DecidableEq

/-- One running `TransferToAccount` call. -/
structure Call where
  senderEmail : String
  recipientEmail : String
  amount : Int
  coord : Coord
  senderTask : Task
  recipientTask : Task
deriving DecidableEq

/-- The call right after its two `go` statements. -/
def Call.init (senderEmail recipientEmail : String) (amount : Int) : Call :=
  ⟨senderEmail, recipientEmail, amount, .recvErr 0, .start, .start⟩

/-- What the scheduler can let happen next in a call. `sender` tells which fetch goroutine is
involved (`true`: the sender's). -/
inductive Move
  | fetch (sender : Bool)
  | err (sender : Bool)
  | user (sender : Bool)
  | store
deriving DecidableEq

/-- The coordinator after it received `err` in iteration `i` of `for i := 0; i < 2; i++`. -/
def afterErr (i : Nat) (err : Option String) : Coord :=
  match err with
  | some e => .returned (some e)
  | none => if i + 1 < 2 then .recvErr (i + 1) else .recvSender

/-- The coordinator after it received both users: the balance check and the two balance
assignments. -/
def afterUsers (senderUser recipientUser : Option User) (amount : Int) : Coord :=
  match senderUser, recipientUser with
  | some senderUser, some recipientUser =>
    if senderUser.Balance < amount then
      .returned (some ErrInsufficientBalance)
    else
      .updSenderGet (debited senderUser amount) (credited recipientUser amount)
  | _, _ => .returned (some "invalid memory address or nil pointer dereference")

/-- The `FetchUser` and existence check that open `UpdateUser user`: the error to return, or
`none` to go on to `PutItem`. -/
def updateGet (user : User) (c : Client) : Option String × Client :=
  match FetchUser user.Email c with
  | (.error err, c) => (some err, c)
  | (.ok existingUser, c) =>
    if existingUser.Email.isEmpty then (some ErrUserDoesNotExist, c) else (none, c)

/-- One move of a call against the store; `none` when the move cannot happen in this state. -/
def Call.step (m : Move) (k : Call) (c : Client) : Option (Call × Client) :=
  match m, k.coord, k.senderTask, k.recipientTask with
  | .fetch true, _, .start, _ =>
    match fetchUserWithChannel k.senderEmail c with
    | ((err, user), c) =>
      some (⟨k.senderEmail, k.recipientEmail, k.amount, k.coord, .sendErr err user,
        k.recipientTask⟩, c)
  | .fetch false, _, _, .start =>
    match fetchUserWithChannel k.recipientEmail c with
    | ((err, user), c) =>
      some (⟨k.senderEmail, k.recipientEmail, k.amount, k.coord, k.senderTask,
        .sendErr err user⟩, c)
  | .err true, .recvErr i, .sendErr err user, _ =>
    some (⟨k.senderEmail, k.recipientEmail, k.amount, afterErr i err, .sendUser user,
      k.recipientTask⟩, c)
  | .err false, .recvErr i, _, .sendErr err user =>
    some (⟨k.senderEmail, k.recipientEmail, k.amount, afterErr i err, k.senderTask,
      .sendUser user⟩, c)
  | .user true, .recvSender, .sendUser user, _ =>
    some (⟨k.senderEmail, k.recipientEmail, k.amount, .recvRecipient user, .done,
      k.recipientTask⟩, c)
  | .user false, .recvRecipient senderUser, _, .sendUser user =>
    some (⟨k.senderEmail, k.recipientEmail, k.amount, afterUsers senderUser user k.amount,
      k.senderTask, .done⟩, c)
  | .store, .updSenderGet senderUser recipientUser, _, _ =>
    match updateGet senderUser c with
    | (some err, c) =>
      some (⟨k.senderEmail, k.recipientEmail, k.amount, .returned (some err), k.senderTask,
        k.recipientTask⟩, c)
    | (none, c) =>
      some (⟨k.senderEmail, k.recipientEmail, k.amount, .updSenderPut senderUser recipientUser,
        k.senderTask, k.recipientTask⟩, c)
  | .store, .updSenderPut senderUser recipientUser, _, _ =>
    match c.PutItem senderUser with
    | (some err, c) =>
      some (⟨k.senderEmail, k.recipientEmail, k.amount, .returned (some err), k.senderTask,
        k.recipientTask⟩, c)
    | (none, c) =>
      some (⟨k.senderEmail, k.recipientEmail, k.amount, .updRecipientGet recipientUser,
        k.senderTask, k.recipientTask⟩, c)
  | .store, .updRecipientGet recipientUser, _, _ =>
    match updateGet recipientUser c with
    | (some err, c) =>
      some (⟨k.senderEmail, k.recipientEmail, k.amount, .returned (some err), k.senderTask,
        k.recipientTask⟩, c)
    | (none, c) =>
      some (⟨k.senderEmail, k.recipientEmail, k.amount, .updRecipientPut recipientUser,
        k.senderTask, k.recipientTask⟩, c)
  | .store, .updRecipientPut recipientUser, _, _ =>
    match c.PutItem recipientUser with
    | (some err, c) =>
      some (⟨k.senderEmail, k.recipientEmail, k.amount, .returned (some err), k.senderTask,
        k.recipientTask⟩, c)
    | (none, c) =>
      some (⟨k.senderEmail, k.recipientEmail, k.amount, .returned none, k.senderTask,
        k.recipientTask⟩, c)
  | _, _, _, _ => none

/-- A run of one call: every move of the list happens, in order; `none` when one cannot. -/
def Call.run : List Move → Call → Client → Option (Call × Client)
  | [], k, c => some (k, c)
  | m :: ms, k, c =>
    match k.step m c with
    | none => none
    | some (k1, c1) => Call.run ms k1 c1

/-- The fetch goroutine of the sender (`true`) or of the recipient (`false`). -/
def Call.task (k : Call) (sender : Bool) : Task :=
  if sender then k.senderTask else k.recipientTask

/-- The identifier the sender's (`true`) or the recipient's (`false`) goroutine fetches. -/
def Call.email (k : Call) (sender : Bool) : String :=
  if sender then k.senderEmail else k.recipientEmail

/-- A goroutine that has not run yet or waits to send a non-nil error. -/
def Task.failing : Task → Bool
  | .start => true
  | .sendErr err _ => err.isSome
  | _ => false

/-- A goroutine whose error has not been received yet. -/
def Task.pending : Task → Bool
  | .start => true
  | .sendErr _ _ => true
  | _ => false

/-- A goroutine blocked on the send to its user channel. -/
def Task.onUserChan : Task → Bool
  | .sendUser _ => true
  | _ => false

/-- A goroutine that has returned. -/
def Task.isDone : Task → Bool
  | .done => true
  | _ => false

/-- The states a call can be in when the fetch of goroutine `w` cannot succeed: the
coordinator is still in the error loop, having received at most the other goroutine's nil
error, or it has returned; no goroutine has returned. -/
def undrained (w : Bool) (k : Call) : Bool :=
  match k.coord with
  | .recvErr 0 => (k.task w).failing && (k.task (!w)).pending
  | .recvErr 1 => (k.task w).failing && (k.task (!w)).onUserChan
  | .returned _ => !(k.task w).isDone && !(k.task (!w)).isDone
  | _ => false

/-- The call to bob from an identifier with no record, after both goroutines fetched, the
coordinator received the recipient's nil error and then the sender's not-found error. -/
def abortedCall : Call :=
  ⟨"dave@x.io", "bob@x.io", 30, .returned (some (notFound "dave@x.io")),
    .sendUser (some User.zero), .sendUser (some (bob 50))⟩

/-! ## Two transfers, interleaved -/

/-- Two running `TransferToAccount` calls that share the store. -/
structure Pair where
  first : Call
  second : Call
  client : Client
deriving DecidableEq

/-- One move of one of the two calls (`inFirst` tells which). -/
def Pair.step (inFirst : Bool) (m : Move) (p : Pair) : Option Pair :=
  if inFirst then
    match p.first.step m p.client with
    | none => none
    | some (k, c) => some ⟨k, p.second, c⟩
  else
    match p.second.step m p.client with
    | none => none
    | some (k, c) => some ⟨p.first, k, c⟩

/-- An interleaving of the moves of two calls: every move happens, in order. -/
def Pair.run : List (Bool × Move) → Pair → Option Pair
  | [], p => some p
  | (w, m) :: ms, p =>
    match p.step w m with
    | none => none
    | some p1 => Pair.run ms p1

/-- A third account for the concrete scenarios. -/
def carol (b : Int) : User := ⟨"carol@x.io", "Carol", "2024-01-03T00:00:00Z", b⟩

/-- The healthy store alice `a`, bob `b`, carol `d`. -/
def trio (a b d : Int) : Client := ⟨[alice a, bob b, carol d], [], 0⟩

/-- Both calls fetch their two accounts and pass the balance check before either writes;
then the first call performs its two updates, then the second call performs its own. -/
def staleReads : List (Bool × Move) :=
  [(true, .fetch true), (true, .fetch false), (false, .fetch true), (false, .fetch false),
   (true, .err true), (true, .err false), (true, .user true), (true, .user false),
   (false, .err false), (false, .err true), (false, .user true), (false, .user false),
   (true, .store), (true, .store), (true, .store), (true, .store),
   (false, .store), (false, .store), (false, .store), (false, .store)]

/-! ## Invariants of two transfers from one sender -/

/-- A record fetched for the sender `s` whose balance is a non-negative `int64`. -/
def goodSender (s : String) (u : User) : Prop :=
  u.Email = s ∧ 0 ≤ u.Balance ∧ u.Balance < 2 ^ 63

/-- The coordinator has returned. -/
def Coord.isReturned : Coord → Bool
  | .returned _ => true
  | _ => false

/-- What the sender's goroutine of a call from `s` holds: with a nil error, a good record of
`s`; once its error is received, the same unless the coordinator has returned. -/
def senderTaskOk (s : String) (returned : Bool) : Task → Prop
  | .sendErr e ou => e = none → ∃ u, ou = some u ∧ goodSender s u
  | .sendUser ou => returned = true ∨ ∃ u, ou = some u ∧ goodSender s u
  | _ => True

/-- What the recipient's goroutine of a call to an account other than `s` holds: a record
stored under another key than `s`. -/
def recipientTaskOk (s : String) (returned : Bool) : Task → Prop
  | .sendErr e ou => e = none → ∃ u, ou = some u ∧ u.Email ≠ s
  | .sendUser ou => returned = true ∨ ∃ u, ou = some u ∧ u.Email ≠ s
  | _ => True

/-- What the coordinator of a call from `s` to another account holds: a good record of `s`
to write (already debited once past the balance check) and a recipient record with another
key. -/
def coordOk (s : String) : Coord → Prop
  | .recvRecipient osu => ∃ su, osu = some su ∧ goodSender s su
  | .updSenderGet su ru => goodSender s su ∧ ru.Email ≠ s
  | .updSenderPut su ru => goodSender s su ∧ ru.Email ≠ s
  | .updRecipientGet ru => ru.Email ≠ s
  | .updRecipientPut ru => ru.Email ≠ s
  | _ => True

/-- The invariant of a running call from `s`, with a positive amount, to another account. -/
def CallInv (s : String) (k : Call) : Prop :=
  k.senderEmail = s ∧ k.recipientEmail ≠ s ∧ 0 < k.amount ∧
  senderTaskOk s k.coord.isReturned k.senderTask ∧
  recipientTaskOk s k.coord.isReturned k.recipientTask ∧ coordOk s k.coord

/-- The balance stored under `s`, if any, is a non-negative `int64`. -/
def StoreInv (s : String) (c : Client) : Prop :=
  ∀ u, lookup c.table s = some u → 0 ≤ u.Balance ∧ u.Balance < 2 ^ 63

/-! ## The states of one transfer on a healthy store -/

/-- The error a fetch goroutine sends for key `k` on a healthy store with table `t`. -/
def errOf (t : List User) (k : String) : Option String :=
  if ((lookup t k).getD User.zero).Email.isEmpty then some (notFound k) else none

/-- The record a fetch goroutine sends for key `k` on a healthy store with table `t`. -/
def userOf (t : List User) (k : String) : Option User :=
  some ((lookup t k).getD User.zero)

/-- A goroutine that has not run or holds the outcome of its fetch of `k`, unsent. -/
def Task.unsent (t : List User) (k : String) (task : Task) : Prop :=
  task = .start ∨ task = .sendErr (errOf t k) (userOf t k)

/-- The outcomes of a transfer from `s` to `r` on a healthy store with table `t`: an abort
on an absent identifier with the table untouched, a refusal for insufficient balance with the
table untouched, or success with the debited sender and the credited recipient written. -/
def Outcome (t : List User) (s r : String) (amount : Int) (res : Option String)
    (t' : List User) : Prop :=
  (∃ k, (k = s ∨ k = r) ∧ (lookup t k = none ∨ k = "") ∧ res = some (notFound k) ∧
    t' = t) ∨
  (∃ su ru, lookup t s = some su ∧ lookup t r = some ru ∧ s ≠ "" ∧ r ≠ "" ∧
    su.Balance < amount ∧ res = some ErrInsufficientBalance ∧ t' = t) ∨
  (∃ su ru, lookup t s = some su ∧ lookup t r = some ru ∧ s ≠ "" ∧ r ≠ "" ∧
    ¬ su.Balance < amount ∧ res = none ∧
    t' = store (store t (debited su amount)) (credited ru amount))

/-- The two records of a transfer that passed the balance check on table `t`. -/
def Checked (t : List User) (s r : String) (amount : Int) (su' ru' : User) : Prop :=
  ∃ su ru, lookup t s = some su ∧ lookup t r = some ru ∧ s ≠ "" ∧ r ≠ "" ∧
    ¬ su.Balance < amount ∧ su' = debited su amount ∧ ru' = credited ru amount

/-- The states a call from `s` to `r` goes through on a healthy store whose table was `t`
when the call started. -/
def Sound (t : List User) (s r : String) (amount : Int) (k : Call) (c : Client) : Prop :=
  c.healthy ∧ k.senderEmail = s ∧ k.recipientEmail = r ∧ k.amount = amount ∧
  match k.coord with
  | .recvErr 0 => c.table = t ∧ k.senderTask.unsent t s ∧ k.recipientTask.unsent t r
  | .recvErr 1 => c.table = t ∧
      ((errOf t s = none ∧ k.senderTask = .sendUser (userOf t s) ∧
          k.recipientTask.unsent t r) ∨
       (errOf t r = none ∧ k.recipientTask = .sendUser (userOf t r) ∧
          k.senderTask.unsent t s))
  | .recvErr _ => False
  | .recvSender => c.table = t ∧ errOf t s = none ∧ errOf t r = none ∧
      k.senderTask = .sendUser (userOf t s) ∧ k.recipientTask = .sendUser (userOf t r)
  | .recvRecipient senderUser => c.table = t ∧ errOf t s = none ∧ errOf t r = none ∧
      senderUser = userOf t s ∧ k.recipientTask = .sendUser (userOf t r)
  | .updSenderGet su' ru' => c.table = t ∧ Checked t s r amount su' ru'
  | .updSenderPut su' ru' => c.table = t ∧ Checked t s r amount su' ru'
  | .updRecipientGet ru' => ∃ su', c.table = store t su' ∧ Checked t s r amount su' ru'
  | .updRecipientPut ru' => ∃ su', c.table = store t su' ∧ Checked t s r amount su' ru'
  | .returned res => Outcome t s r amount res c.table

/-! ## The table -/

theorem lookup_email {t : List User} {k : String} {u : User} (h : lookup t k = some u) :
    u.Email = k := by
  have := List.find?_some h
  simpa using this

theorem lookup_mem {t : List User} {k : String} {u : User} (h : lookup t k = some u) :
    u ∈ t := List.mem_of_find?_eq_some h

theorem lookup_cons (a : User) (t : List User) (k : String) :
    lookup (a :: t) k = if a.Email = k then some a else lookup t k := by
  unfold lookup
  rw [List.find?_cons]
  by_cases h : a.Email = k
  · simp [h]
  · have hb : (a.Email == k) = false := by simpa using h
    simp [hb, h]

theorem lookup_append_none {t : List User} {k : String} (h : lookup t k = none) (u : User) :
    lookup (t ++ [u]) k = if u.Email = k then some u else none := by
  induction t with
  | nil => simp [lookup_cons, lookup]
  | cons a t ih =>
    rw [lookup_cons] at h
    rw [List.cons_append, lookup_cons]
    by_cases ha : a.Email = k
    · simp [ha] at h
    · rw [if_neg ha] at h ⊢
      exact ih h

theorem lookup_append_some {t : List User} {k : String} {v : User} (h : lookup t k = some v)
    (u : User) : lookup (t ++ [u]) k = some v := by
  induction t with
  | nil => simp [lookup] at h
  | cons a t ih =>
    rw [lookup_cons] at h
    rw [List.cons_append, lookup_cons]
    by_cases ha : a.Email = k
    · rw [if_pos ha] at h ⊢
      exact h
    · rw [if_neg ha] at h ⊢
      exact ih h

theorem lookup_map_self (t : List User) (item : User)
    (h : (lookup t item.Email).isSome = true) :
    lookup (t.map (fun u => if u.Email == item.Email then item else u)) item.Email
      = some item := by
  induction t with
  | nil => simp [lookup] at h
  | cons a t ih =>
    rw [lookup_cons] at h
    rw [List.map_cons, lookup_cons]
    by_cases ha : a.Email = item.Email
    · simp [ha]
    · rw [if_neg ha] at h
      have hb : (a.Email == item.Email) = false := by simpa using ha
      simp only [hb, Bool.false_eq_true, if_false, if_neg ha]
      exact ih h

theorem lookup_map_other (t : List User) (item : User) (k : String) (hk : item.Email ≠ k) :
    lookup (t.map (fun u => if u.Email == item.Email then item else u)) k = lookup t k := by
  induction t with
  | nil => rfl
  | cons a t ih =>
    rw [List.map_cons, lookup_cons, lookup_cons, ih]
    by_cases ha : a.Email = item.Email
    · have hak : ¬ a.Email = k := by rw [ha]; exact hk
      simp [ha, hk, hak]
    · simp [ha]

theorem lookup_store_self (t : List User) (item : User) :
    lookup (store t item) item.Email = some item := by
  unfold store
  split
  · rename_i h
    exact lookup_map_self t item h
  · rename_i h
    have hn : lookup t item.Email = none := by
      cases hl : lookup t item.Email with
      | none => rfl
      | some v => simp [hl] at h
    rw [lookup_append_none hn]
    simp

theorem lookup_store_other (t : List User) (item : User) (k : String) (hk : item.Email ≠ k) :
    lookup (store t item) k = lookup t k := by
  unfold store
  split
  · exact lookup_map_other t item k hk
  · cases hl : lookup t k with
    | none => rw [lookup_append_none hl]; simp [hk]
    | some v => exact lookup_append_some hl item

theorem mem_store {t : List User} {item u : User} (h : u ∈ store t item) :
    u ∈ t ∨ u = item := by
  unfold store at h
  split at h
  · rw [List.mem_map] at h
    obtain ⟨a, ha, hau⟩ := h
    split at hau
    · exact Or.inr hau.symm
    · exact Or.inl (hau ▸ ha)
  · simpa using h

/-! ## The store calls -/

theorem sameStore_refl (c : Client) : sameStore c c := ⟨rfl, rfl⟩

theorem sameStore_trans {a b c : Client} (h1 : sameStore a b) (h2 : sameStore b c) :
    sameStore a c := ⟨h2.1.trans h1.1, h2.2.trans h1.2⟩

theorem isEmpty_eq_false {k : String} (h : k ≠ "") : k.isEmpty = false := by
  cases hk : k.isEmpty with
  | false => rfl
  | true => exact absurd ((String.isEmpty_iff k).1 hk) h

theorem GetItem_sameStore (c : Client) (k : String) : sameStore c (c.GetItem k).2 := by
  unfold Client.GetItem
  split <;> exact ⟨rfl, rfl⟩

theorem GetItem_ok {c c' : Client} {k : String} {item : Option User}
    (h : c.GetItem k = (.ok item, c')) : item = lookup c.table k := by
  unfold Client.GetItem at h
  split at h <;> simp at h <;> exact h.1.symm

theorem GetItem_healthy (c : Client) (k : String) (h : c.healthy) :
    ∃ c', c.GetItem k = (.ok (lookup c.table k), c') ∧ sameStore c c' ∧ c'.healthy := by
  unfold Client.GetItem
  split
  · rename_i e rest hf
    have := h (some e) (by rw [hf]; exact List.mem_cons_self _ _)
    simp at this
  · rename_i rest hf
    refine ⟨_, rfl, ⟨rfl, rfl⟩, ?_⟩
    intro f hfm
    exact h f (by rw [hf]; exact List.mem_cons_of_mem _ hfm)
  · exact ⟨_, rfl, ⟨rfl, rfl⟩, h⟩

theorem PutItem_error {c c' : Client} {u : User} {e : String}
    (h : c.PutItem u = (some e, c')) : c'.table = c.table ∧ c'.puts = c.puts + 1 := by
  unfold Client.PutItem at h
  split at h <;> simp at h
  obtain ⟨_, rfl⟩ := h
  exact ⟨rfl, rfl⟩

theorem PutItem_ok {c c' : Client} {u : User}
    (h : c.PutItem u = (none, c')) : c'.table = store c.table u ∧ c'.puts = c.puts + 1 := by
  unfold Client.PutItem at h
  split at h <;> simp at h <;> subst h <;> exact ⟨rfl, rfl⟩

theorem PutItem_healthy (c : Client) (u : User) (h : c.healthy) :
    ∃ c', c.PutItem u = (none, c') ∧ c'.table = store c.table u ∧ c'.puts = c.puts + 1 ∧
      c'.healthy := by
  unfold Client.PutItem
  split
  · rename_i e rest hf
    have := h (some e) (by rw [hf]; exact List.mem_cons_self _ _)
    simp at this
  · rename_i rest hf
    refine ⟨_, rfl, rfl, rfl, ?_⟩
    intro f hfm
    exact h f (by rw [hf]; exact List.mem_cons_of_mem _ hfm)
  · rename_i hf
    refine ⟨_, rfl, rfl, rfl, ?_⟩
    intro f hfm
    simp at hfm

/-! ## The repository functions, call by call -/

theorem FetchUser_sameStore (k : String) (c : Client) : sameStore c (FetchUser k c).2 := by
  unfold FetchUser
  have h := GetItem_sameStore c k
  split
  · rename_i heq; rw [heq] at h; exact h
  · rename_i heq; rw [heq] at h; exact h

theorem FetchUser_ok {k : String} {c c' : Client} {u : User}
    (h : FetchUser k c = (.ok u, c')) : u = (lookup c.table k).getD User.zero := by
  unfold FetchUser at h
  split at h
  · simp at h
  · rename_i item c1 heq
    have := GetItem_ok heq
    simp at h
    rw [← h.1, this]

theorem FetchUser_healthy (k : String) (c : Client) (h : c.healthy) :
    ∃ c', FetchUser k c = (.ok ((lookup c.table k).getD User.zero), c') ∧ sameStore c c' ∧
      c'.healthy := by
  obtain ⟨c', hg, hs, hh⟩ := GetItem_healthy c k h
  exact ⟨c', by simp [FetchUser, hg], hs, hh⟩

/-- A fetched record with a non-empty `Email` is the item stored under the key. -/
theorem getD_nonempty {t : List User} {k : String}
    (h : ((lookup t k).getD User.zero).Email.isEmpty = false) :
    lookup t k = some ((lookup t k).getD User.zero) ∧ k ≠ "" := by
  cases hl : lookup t k with
  | none => rw [hl] at h; simp [User.zero] at h; exact absurd h (by decide)
  | some u =>
    refine ⟨rfl, ?_⟩
    rw [hl] at h
    have he := lookup_email hl
    intro hk
    rw [← he] at hk
    simp [hk] at h
    exact absurd h (by decide)

theorem UpdateUser_error {u : User} {c c' : Client} {e : String}
    (h : UpdateUser u c = (.error e, c')) : c'.table = c.table := by
  unfold UpdateUser at h
  have hs := FetchUser_sameStore u.Email c
  split at h
  · rename_i err c1 heq
    rw [heq] at hs; simp at h; rw [← h.2]; exact hs.1
  · rename_i ex c1 heq
    rw [heq] at hs
    split at h
    · simp at h; rw [← h.2]; exact hs.1
    · split at h
      · rename_i err c2 hp
        simp at h; rw [← h.2, (PutItem_error hp).1]; exact hs.1
      · simp at h

theorem UpdateUser_ok {u v : User} {c c' : Client}
    (h : UpdateUser u c = (.ok v, c')) :
    v = u ∧ c'.table = store c.table u ∧ c'.puts = c.puts + 1 ∧
      (∃ w, lookup c.table u.Email = some w) ∧ u.Email ≠ "" := by
  unfold UpdateUser at h
  have hs := FetchUser_sameStore u.Email c
  split at h
  · simp at h
  · rename_i ex c1 heq
    rw [heq] at hs
    have hex := FetchUser_ok heq
    split at h
    · simp at h
    · rename_i hne
      have hne2 : ex.Email.isEmpty = false := by simpa using hne
      rw [hex] at hne2
      obtain ⟨hl, hk⟩ := getD_nonempty hne2
      split at h
      · simp at h
      · rename_i c2 hp
        simp at h
        obtain ⟨hv, hc⟩ := h
        obtain ⟨ht, hpn⟩ := PutItem_ok hp
        subst hc
        exact ⟨hv.symm, by rw [ht, hs.1], by rw [hpn, hs.2], ⟨_, hl⟩, hk⟩

theorem UpdateUser_healthy {u w : User} (c : Client) (h : c.healthy)
    (hl : lookup c.table u.Email = some w) (hk : u.Email ≠ "") :
    ∃ c', UpdateUser u c = (.ok u, c') ∧ c'.table = store c.table u ∧
      c'.puts = c.puts + 1 ∧ c'.healthy := by
  obtain ⟨c1, hf, hs, hh⟩ := FetchUser_healthy u.Email c h
  obtain ⟨c2, hp, ht, hn, hh2⟩ := PutItem_healthy c1 u hh
  have hw : w.Email.isEmpty = false := by
    rw [lookup_email hl]; exact isEmpty_eq_false hk
  refine ⟨c2, ?_, by rw [ht, hs.1], by rw [hn, hs.2], hh2⟩
  simp [UpdateUser, hf, hl, hw, hp]

theorem fetchUserWithChannel_sameStore (k : String) (c : Client) :
    sameStore c (fetchUserWithChannel k c).2 := by
  unfold fetchUserWithChannel
  have hs := FetchUser_sameStore k c
  split
  · rename_i heq; rw [heq] at hs; exact hs
  · rename_i heq; rw [heq] at hs
    split <;> exact hs

/-- A goroutine that sends a nil error sends the item stored under a non-empty key. -/
theorem fetchUserWithChannel_nil {k : String} {c c' : Client} {ou : Option User}
    (h : fetchUserWithChannel k c = ((none, ou), c')) :
    ∃ u, ou = some u ∧ lookup c.table k = some u ∧ k ≠ "" ∧ sameStore c c' := by
  have hs := fetchUserWithChannel_sameStore k c
  rw [h] at hs
  unfold fetchUserWithChannel at h
  split at h
  · simp at h
  · rename_i user c1 heq
    have hu := FetchUser_ok heq
    split at h
    · simp at h
    · rename_i hne
      have hne2 : user.Email.isEmpty = false := by simpa using hne
      rw [hu] at hne2
      obtain ⟨hl, hk⟩ := getD_nonempty hne2
      simp at h
      refine ⟨user, h.1.symm, ?_, hk, hs⟩
      rw [hu]; exact hl

theorem fetchUserWithChannel_present {k : String} {u : User} (c : Client) (h : c.healthy)
    (hl : lookup c.table k = some u) (hk : k ≠ "") :
    ∃ c', fetchUserWithChannel k c = ((none, some u), c') ∧ sameStore c c' ∧ c'.healthy := by
  obtain ⟨c1, hf, hs, hh⟩ := FetchUser_healthy k c h
  have hw : u.Email.isEmpty = false := by
    rw [lookup_email hl]; exact isEmpty_eq_false hk
  exact ⟨c1, by simp [fetchUserWithChannel, hf, hl, hw], hs, hh⟩

theorem fetchUserWithChannel_absent {k : String} (c : Client) (h : c.healthy)
    (hl : lookup c.table k = none) :
    ∃ c', fetchUserWithChannel k c = ((some (notFound k), some User.zero), c') ∧
      sameStore c c' ∧ c'.healthy := by
  obtain ⟨c1, hf, hs, hh⟩ := FetchUser_healthy k c h
  refine ⟨c1, ?_, hs, hh⟩
  have hz : User.zero.Email.isEmpty = true := by decide
  simp [fetchUserWithChannel, hf, hl, hz]

/-- On a healthy client a goroutine either sends a nil error and the stored item, or the
not-found error of its own key. -/
theorem fetchUserWithChannel_healthy (k : String) (c : Client) (h : c.healthy) :
    ∃ c', sameStore c c' ∧ c'.healthy ∧
      ((∃ u, fetchUserWithChannel k c = ((none, some u), c') ∧ lookup c.table k = some u ∧
          k ≠ "") ∨
       (∃ u, fetchUserWithChannel k c = ((some (notFound k), some u), c') ∧
          (lookup c.table k = none ∨ k = ""))) := by
  obtain ⟨c1, hf, hs, hh⟩ := FetchUser_healthy k c h
  refine ⟨c1, hs, hh, ?_⟩
  cases he : ((lookup c.table k).getD User.zero).Email.isEmpty with
  | false =>
    obtain ⟨hl, hk⟩ := getD_nonempty he
    exact Or.inl ⟨(lookup c.table k).getD User.zero,
      by simp [fetchUserWithChannel, hf, he], hl, hk⟩
  | true =>
    refine Or.inr ⟨(lookup c.table k).getD User.zero,
      by simp [fetchUserWithChannel, hf, he], ?_⟩
    cases hl : lookup c.table k with
    | none => exact Or.inl rfl
    | some u =>
      right
      rw [hl] at he
      have := (String.isEmpty_iff _).1 he
      rw [← lookup_email hl]; exact this

theorem fetchUserWithChannel_none {k : String} (c : Client) (hl : lookup c.table k = none) :
    ∃ e u c', fetchUserWithChannel k c = ((some e, u), c') := by
  unfold fetchUserWithChannel
  split
  · exact ⟨_, _, _, rfl⟩
  · rename_i user c1 heq
    have hu := FetchUser_ok heq
    rw [hl] at hu
    have hz : user.Email.isEmpty = true := by rw [hu]; decide
    rw [if_pos hz]
    exact ⟨_, _, _, rfl⟩


/-! ## The transfer, phase by phase -/

theorem fetchBoth_sameStore (sched : Sched) (s r : String) (c : Client) :
    sameStore c (fetchBoth sched s r c).2.2 := by
  unfold fetchBoth
  split
  · have h1 := fetchUserWithChannel_sameStore s c
    have h2 := fetchUserWithChannel_sameStore r (fetchUserWithChannel s c).2
    exact sameStore_trans h1 h2
  · have h1 := fetchUserWithChannel_sameStore r c
    have h2 := fetchUserWithChannel_sameStore s (fetchUserWithChannel r c).2
    exact sameStore_trans h1 h2

theorem FetchResult_of_healthy (k : String) (c : Client) (h : c.healthy) :
    ∃ f c', fetchUserWithChannel k c = (f, c') ∧ sameStore c c' ∧ c'.healthy ∧
      FetchResult c.table k f := by
  obtain ⟨c', hs, hh, hcase⟩ := fetchUserWithChannel_healthy k c h
  rcases hcase with ⟨u, hf, hl, hk⟩ | ⟨u, hf, hl⟩
  · exact ⟨_, c', hf, hs, hh, Or.inl ⟨u, rfl, hl, hk⟩⟩
  · exact ⟨_, c', hf, hs, hh, Or.inr ⟨u, rfl, hl⟩⟩

theorem fetchBoth_healthy (sched : Sched) (s r : String) (c : Client) (h : c.healthy) :
    ∃ fs fr c', fetchBoth sched s r c = (fs, fr, c') ∧ sameStore c c' ∧ c'.healthy ∧
      FetchResult c.table s fs ∧ FetchResult c.table r fr := by
  unfold fetchBoth
  cases sched.senderFetchFirst with
  | true =>
    obtain ⟨fs, c1, h1, hs1, hh1, hr1⟩ := FetchResult_of_healthy s c h
    obtain ⟨fr, c2, h2, hs2, hh2, hr2⟩ := FetchResult_of_healthy r c1 hh1
    rw [hs1.1] at hr2
    exact ⟨fs, fr, c2, by simp [h1, h2], sameStore_trans hs1 hs2, hh2, hr1, hr2⟩
  | false =>
    obtain ⟨fr, c1, h1, hs1, hh1, hr1⟩ := FetchResult_of_healthy r c h
    obtain ⟨fs, c2, h2, hs2, hh2, hr2⟩ := FetchResult_of_healthy s c1 hh1
    rw [hs1.1] at hr2
    exact ⟨fs, fr, c2, by simp [h1, h2], sameStore_trans hs1 hs2, hh2, hr2, hr1⟩

/-- Both goroutines sent a nil error: each sent the item stored under its key. -/
theorem fetchBoth_nil {sched : Sched} {s r : String} {c c1 : Client} {os orr : Option User}
    (h : fetchBoth sched s r c = ((none, os), (none, orr), c1)) :
    ∃ su ru, os = some su ∧ orr = some ru ∧ lookup c.table s = some su ∧
      lookup c.table r = some ru ∧ s ≠ "" ∧ r ≠ "" ∧ sameStore c c1 := by
  have hss := fetchBoth_sameStore sched s r c
  rw [h] at hss
  unfold fetchBoth at h
  cases hb : sched.senderFetchFirst with
  | true =>
    rw [hb] at h
    simp only [if_true] at h
    cases h1 : fetchUserWithChannel s c with
    | mk fs c' =>
      cases h2 : fetchUserWithChannel r c' with
      | mk fr c'' =>
        rw [h1] at h; simp only [] at h; rw [h2] at h; simp only [Prod.mk.injEq] at h
        obtain ⟨rfl, rfl, rfl⟩ := h
        obtain ⟨su, e1, l1, k1, s1⟩ := fetchUserWithChannel_nil h1
        obtain ⟨ru, e2, l2, k2, _⟩ := fetchUserWithChannel_nil h2
        rw [s1.1] at l2
        exact ⟨su, ru, e1, e2, l1, l2, k1, k2, hss⟩
  | false =>
    rw [hb] at h
    simp only [Bool.false_eq_true, if_false] at h
    cases h1 : fetchUserWithChannel r c with
    | mk fr c' =>
      cases h2 : fetchUserWithChannel s c' with
      | mk fs c'' =>
        rw [h1] at h; simp only [] at h; rw [h2] at h; simp only [Prod.mk.injEq] at h
        obtain ⟨rfl, rfl, rfl⟩ := h
        obtain ⟨ru, e1, l1, k1, s1⟩ := fetchUserWithChannel_nil h1
        obtain ⟨su, e2, l2, k2, _⟩ := fetchUserWithChannel_nil h2
        rw [s1.1] at l2
        exact ⟨su, ru, e2, e1, l2, l1, k2, k1, hss⟩

/-- After two nil errors the transfer is the settlement of the two fetched records. -/
theorem TransferToAccount_fetched {sched : Sched} {s r : String} {c c1 : Client}
    {su ru : User} (amount : Int)
    (h : fetchBoth sched s r c = ((none, some su), (none, some ru), c1)) :
    TransferToAccount sched s r amount c = settle su ru amount c1 := by
  unfold TransferToAccount settle
  rw [h]
  cases sched.senderErrFirst <;> simp [debited, credited]

/-- A non-nil error of either goroutine aborts the transfer with one of the errors sent,
before any write. -/
theorem TransferToAccount_aborted {sched : Sched} {s r : String} {c c1 : Client}
    {fs fr : Option String × Option User} (amount : Int)
    (h : fetchBoth sched s r c = (fs, fr, c1)) (hne : fs.1 ≠ none ∨ fr.1 ≠ none) :
    ∃ e, (fs.1 = some e ∨ fr.1 = some e) ∧
      TransferToAccount sched s r amount c = (some e, c1) := by
  unfold TransferToAccount
  rw [h]
  cases hb : sched.senderErrFirst <;> cases hes : fs.1 <;> cases her : fr.1 <;>
    simp_all

/-! ## `int64` arithmetic -/

theorem wrapInt64_of_isInt64 {x : Int} (h : isInt64 x) : wrapInt64 x = x := by
  unfold isInt64 at h
  unfold wrapInt64
  norm_num at h ⊢
  omega

theorem isInt64_wrapInt64 (x : Int) : isInt64 (wrapInt64 x) := by
  unfold isInt64 wrapInt64
  norm_num
  omega

/-- A debit that passed the balance check with a positive amount does not wrap. -/
theorem debit_exact {b amount : Int} (hb : isInt64 b) (hpos : 0 < amount) (hge : ¬ b < amount) :
    wrapInt64 (b - amount) = b - amount := by
  apply wrapInt64_of_isInt64
  unfold isInt64 at hb ⊢
  norm_num at hb ⊢
  omega

/-- A credit of a positive amount that stays below `2^63` does not wrap. -/
theorem credit_exact {b amount : Int} (hb : isInt64 b) (hpos : 0 < amount)
    (hfit : b + amount < 2 ^ 63) : wrapInt64 (b + amount) = b + amount := by
  apply wrapInt64_of_isInt64
  unfold isInt64 at hb ⊢
  norm_num at hb hfit ⊢
  omega

/-- A credit of a positive amount that reaches `2^63` wraps to a negative balance. -/
theorem credit_wraps {b amount : Int} (hb : isInt64 b) (ha : isInt64 amount)
    (hover : 2 ^ 63 ≤ b + amount) : wrapInt64 (b + amount) = b + amount - 2 ^ 64 := by
  unfold isInt64 at hb ha
  unfold wrapInt64
  norm_num at hb ha hover ⊢
  omega

/-! ## Settlement on a healthy store -/

/-- On a healthy store, the settlement of two stored records that passes the balance check
writes the debited sender and then the credited recipient. -/
theorem settle_healthy {su ru : User} {amount : Int} (c : Client) (hc : c.healthy)
    (hs : lookup c.table su.Email = some su) (hr : lookup c.table ru.Email = some ru)
    (hse : su.Email ≠ "") (hre : ru.Email ≠ "") (hge : ¬ su.Balance < amount) :
    ∃ c', settle su ru amount c = (none, c') ∧
      c'.table = store (store c.table (debited su amount)) (credited ru amount) ∧
      c'.puts = c.puts + 2 ∧ c'.healthy := by
  have hs1 : lookup c.table (debited su amount).Email = some su := hs
  obtain ⟨c1, h1, t1, p1, hh1⟩ := UpdateUser_healthy c hc hs1 hse
  have hr1 : ∃ w, lookup c1.table (credited ru amount).Email = some w := by
    rw [t1]
    by_cases he : (debited su amount).Email = ru.Email
    · exact ⟨_, by
        show lookup _ ru.Email = _
        rw [← he]; exact lookup_store_self _ _⟩
    · exact ⟨ru, by
        show lookup _ ru.Email = _
        rw [lookup_store_other _ _ _ he]; exact hr⟩
  obtain ⟨w, hw⟩ := hr1
  obtain ⟨c2, h2, t2, p2, hh2⟩ := UpdateUser_healthy c1 hh1 hw hre
  refine ⟨c2, ?_, by rw [t2, t1], by rw [p2, p1], hh2⟩
  simp [settle, hge, h1, h2]

/-- The transfer on a healthy store, in full: it aborts on an absent account without
writing, or refuses an insufficient balance without writing, or writes the debited sender and
then the credited recipient. -/
theorem TransferToAccount_healthy (sched : Sched) (s r : String) (amount : Int) (c : Client)
    (hc : c.healthy) :
    ∃ res c', TransferToAccount sched s r amount c = (res, c') ∧ c'.healthy ∧
      ((∃ k, (k = s ∨ k = r) ∧ (lookup c.table k = none ∨ k = "") ∧
          res = some (notFound k) ∧ sameStore c c') ∨
       (∃ su ru, lookup c.table s = some su ∧ lookup c.table r = some ru ∧ s ≠ "" ∧
          r ≠ "" ∧ su.Balance < amount ∧ res = some ErrInsufficientBalance ∧
          sameStore c c') ∨
       (∃ su ru, lookup c.table s = some su ∧ lookup c.table r = some ru ∧ s ≠ "" ∧
          r ≠ "" ∧ ¬ su.Balance < amount ∧ res = none ∧
          c'.table = store (store c.table (debited su amount)) (credited ru amount) ∧
          c'.puts = c.puts + 2)) := by
  obtain ⟨fs, fr, c1, hf, hs1, hh1, hrs, hrr⟩ := fetchBoth_healthy sched s r c hc
  rcases hrs with ⟨su, rfl, hls, hks⟩ | ⟨us, rfl, hls⟩
  · rcases hrr with ⟨ru, rfl, hlr, hkr⟩ | ⟨ur, rfl, hlr⟩
    · rw [TransferToAccount_fetched amount hf]
      have hse := lookup_email hls
      have hre := lookup_email hlr
      by_cases hlt : su.Balance < amount
      · refine ⟨some ErrInsufficientBalance, c1, by simp [settle, hlt], hh1,
          Or.inr (Or.inl ?_)⟩
        exact ⟨su, ru, hls, hlr, hks, hkr, hlt, rfl, hs1⟩
      · have hs' : lookup c1.table su.Email = some su := by rw [hs1.1, hse]; exact hls
        have hr' : lookup c1.table ru.Email = some ru := by rw [hs1.1, hre]; exact hlr
        obtain ⟨c2, h2, t2, p2, hh2⟩ := settle_healthy c1 hh1 hs' hr'
          (by rw [hse]; exact hks) (by rw [hre]; exact hkr) hlt
        refine ⟨none, c2, h2, hh2, Or.inr (Or.inr ?_)⟩
        exact ⟨su, ru, hls, hlr, hks, hkr, hlt, rfl, by rw [t2, hs1.1], by rw [p2, hs1.2]⟩
    · obtain ⟨e, he, ht⟩ := TransferToAccount_aborted amount hf (Or.inr (by simp))
      have : e = notFound r := by
        rcases he with he | he <;> simp at he
        exact he.symm
      subst this
      exact ⟨_, c1, ht, hh1, Or.inl ⟨r, Or.inr rfl, hlr, rfl, hs1⟩⟩
  · obtain ⟨e, he, ht⟩ := TransferToAccount_aborted amount hf (Or.inl (by simp))
    rcases hrr with ⟨ru, rfl, hlr, hkr⟩ | ⟨ur, rfl, hlr⟩
    · have : e = notFound s := by
        rcases he with he | he <;> simp at he
        exact he.symm
      subst this
      exact ⟨_, c1, ht, hh1, Or.inl ⟨s, Or.inl rfl, hls, rfl, hs1⟩⟩
    · rcases he with he | he <;> simp at he <;> subst he
      · exact ⟨_, c1, ht, hh1, Or.inl ⟨s, Or.inl rfl, hls, rfl, hs1⟩⟩
      · exact ⟨_, c1, ht, hh1, Or.inl ⟨r, Or.inr rfl, hlr, rfl, hs1⟩⟩

/-! ## Whatever the store failures -/

/-- Whatever the store failures, what the two goroutines send is what each fetch yields on a
client that holds the initial table. -/
theorem fetchBoth_cases (sched : Sched) (s r : String) (c : Client) :
    ∃ ca cb, sameStore c ca ∧ sameStore c cb ∧
      (fetchBoth sched s r c).1 = (fetchUserWithChannel s ca).1 ∧
      (fetchBoth sched s r c).2.1 = (fetchUserWithChannel r cb).1 := by
  unfold fetchBoth
  cases sched.senderFetchFirst with
  | true =>
    exact ⟨c, (fetchUserWithChannel s c).2, sameStore_refl c,
      fetchUserWithChannel_sameStore s c, rfl, rfl⟩
  | false =>
    exact ⟨(fetchUserWithChannel r c).2, c, fetchUserWithChannel_sameStore r c,
      sameStore_refl c, rfl, rfl⟩

theorem fetchUserWithChannel_fails {k : String} (c : Client) (hl : lookup c.table k = none) :
    (fetchUserWithChannel k c).1.1 ≠ none := by
  obtain ⟨e, u, c', h⟩ := fetchUserWithChannel_none c hl
  rw [h]
  simp

/-- Whatever the store failures, a transfer with an absent sender or recipient returns an
error and writes nothing. -/
theorem TransferToAccount_absent_any (sched : Sched) (s r : String) (amount : Int)
    (c : Client) (habs : lookup c.table s = none ∨ lookup c.table r = none) :
    ∃ e c1, TransferToAccount sched s r amount c = (some e, c1) ∧ sameStore c c1 := by
  obtain ⟨ca, cb, hsa, hsb, h1, h2⟩ := fetchBoth_cases sched s r c
  have hss := fetchBoth_sameStore sched s r c
  cases hf : fetchBoth sched s r c with
  | mk fs rest =>
    obtain ⟨fr, c1⟩ := rest
    rw [hf] at h1 h2 hss
    simp only at h1 h2 hss
    have hne : fs.1 ≠ none ∨ fr.1 ≠ none := by
      rcases habs with h | h
      · left
        rw [h1]
        exact fetchUserWithChannel_fails ca (by rw [hsa.1]; exact h)
      · right
        rw [h2]
        exact fetchUserWithChannel_fails cb (by rw [hsb.1]; exact h)
    obtain ⟨e, _, ht⟩ := TransferToAccount_aborted amount hf hne
    exact ⟨e, c1, ht, hss⟩

/-- Whatever the store failures, a transfer between two present accounts with
`sender.balance < amount` returns an error and writes nothing. -/
theorem TransferToAccount_insufficient_any (sched : Sched) (s r : String) (amount : Int)
    (c : Client) {su : User} (hs : lookup c.table s = some su) (hlt : su.Balance < amount) :
    ∃ e c1, TransferToAccount sched s r amount c = (some e, c1) ∧ sameStore c c1 := by
  have hss := fetchBoth_sameStore sched s r c
  cases hf : fetchBoth sched s r c with
  | mk fs rest =>
    obtain ⟨fr, c1⟩ := rest
    obtain ⟨es, us⟩ := fs
    obtain ⟨er, ur⟩ := fr
    rw [hf] at hss
    simp only at hss
    cases es with
    | some e =>
      obtain ⟨e', _, ht⟩ := TransferToAccount_aborted amount hf (Or.inl (by simp))
      exact ⟨e', c1, ht, hss⟩
    | none =>
      cases er with
      | some e =>
        obtain ⟨e', _, ht⟩ := TransferToAccount_aborted amount hf (Or.inr (by simp))
        exact ⟨e', c1, ht, hss⟩
      | none =>
        obtain ⟨su', ru', rfl, rfl, hls, _, _, _, _⟩ := fetchBoth_nil hf
        rw [hs] at hls
        cases hls
        refine ⟨ErrInsufficientBalance, c1, ?_, hss⟩
        rw [TransferToAccount_fetched amount hf]
        simp [settle, hlt]

/-! ## Claims about a single transfer -/

/-- C1, amended. On a healthy store, a transfer of `amount > 0` between two distinct present
accounts with `sender.balance ≥ amount` returns no error; the stored sender balance is the old
one minus `amount`; the stored recipient balance is the `int64` sum of the old one and
`amount`, which is the old one plus `amount`, with the sum of the two balances conserved,
whenever that sum stays below `2^63`. -/
theorem TransferToAccount_moves_funds (sched : Sched) (c : Client) (s r : String)
    (su ru : User) (amount : Int) (hc : c.healthy) (hs : lookup c.table s = some su)
    (hr : lookup c.table r = some ru) (hse : s ≠ "") (hre : r ≠ "") (hne : s ≠ r)
    (hsb : isInt64 su.Balance) (hrb : isInt64 ru.Balance) (hpos : 0 < amount)
    (hge : amount ≤ su.Balance) :
    (TransferToAccount sched s r amount c).1 = none ∧
    ∃ su' ru', lookup (TransferToAccount sched s r amount c).2.table s = some su' ∧
      lookup (TransferToAccount sched s r amount c).2.table r = some ru' ∧
      su'.Balance = su.Balance - amount ∧
      ru'.Balance = wrapInt64 (ru.Balance + amount) ∧
      (ru.Balance + amount < 2 ^ 63 →
        ru'.Balance = ru.Balance + amount ∧
        su'.Balance + ru'.Balance = su.Balance + ru.Balance) := by
  obtain ⟨res, c', ht, _, hcase⟩ := TransferToAccount_healthy sched s r amount c hc
  rw [ht]
  have hnlt : ¬ su.Balance < amount := not_lt.mpr hge
  rcases hcase with ⟨k, hk, habs, _, _⟩ | ⟨su1, _, hs1, _, _, _, hlt, _, _⟩ |
      ⟨su1, ru1, hs1, hr1, _, _, _, hres, htab, _⟩
  · rcases hk with rfl | rfl
    · rcases habs with h | h
      · rw [hs] at h; simp at h
      · exact absurd h hse
    · rcases habs with h | h
      · rw [hr] at h; simp at h
      · exact absurd h hre
  · rw [hs] at hs1
    cases hs1
    exact absurd hlt hnlt
  · rw [hs] at hs1; rw [hr] at hr1
    cases hs1; cases hr1
    have hes := lookup_email hs
    have her := lookup_email hr
    have hdne : (debited su amount).Email ≠ r := by
      show su.Email ≠ r
      rw [hes]; exact hne
    have hcne : (credited ru amount).Email ≠ s := by
      show ru.Email ≠ s
      rw [her]; exact fun h => hne h.symm
    refine ⟨hres, debited su amount, credited ru amount, ?_, ?_, ?_, rfl, ?_⟩
    · show lookup c'.table s = _
      rw [htab, lookup_store_other _ _ _ hcne]
      have := lookup_store_self c.table (debited su amount)
      rw [show (debited su amount).Email = s from hes] at this
      exact this
    · show lookup c'.table r = _
      rw [htab]
      have := lookup_store_self (store c.table (debited su amount)) (credited ru amount)
      rw [show (credited ru amount).Email = r from her] at this
      exact this
    · exact debit_exact hsb hpos hnlt
    · intro hfit
      have h1 : (credited ru amount).Balance = ru.Balance + amount :=
        credit_exact hrb hpos hfit
      have h2 : (debited su amount).Balance = su.Balance - amount :=
        debit_exact hsb hpos hnlt
      refine ⟨h1, ?_⟩
      rw [h1, h2]; ring

/-- C1: the scenario sender 100, recipient 50, amount 30 gives sender 70, recipient 80. -/
theorem TransferToAccount_moves_funds_witness :
    (TransferToAccount ⟨true, false⟩ "alice@x.io" "bob@x.io" 30 (ledger 100 50)).1 = none ∧
    (TransferToAccount ⟨true, false⟩ "alice@x.io" "bob@x.io" 30 (ledger 100 50)).2.table
      = [alice 70, bob 80] :=
  ⟨(TransferToAccount_moves_funds ⟨true, false⟩ (ledger 100 50) "alice@x.io" "bob@x.io"
      (alice 100) (bob 50) 30 (by decide) (by decide) (by decide) (by decide) (by decide)
      (by decide) (by decide) (by decide) (by decide) (by decide)).1, by decide⟩

/-- C1 as stated fails when the credit overflows `int64`: with sender balance 1, recipient
balance `2^63 - 1` and amount 1 all the preconditions hold and the transfer returns no error,
but the stored recipient balance is `-2^63`, not `2^63`, and the sum of the two stored
balances is `-2^63`, not `2^63`. -/
theorem TransferToAccount_credit_overflow :
    (ledger 1 (2 ^ 63 - 1)).healthy ∧
    lookup (ledger 1 (2 ^ 63 - 1)).table "alice@x.io" = some (alice 1) ∧
    lookup (ledger 1 (2 ^ 63 - 1)).table "bob@x.io" = some (bob (2 ^ 63 - 1)) ∧
    isInt64 (2 ^ 63 - 1) ∧ (0 : Int) < 1 ∧ (1 : Int) ≤ (alice 1).Balance ∧
    TransferToAccount ⟨true, true⟩ "alice@x.io" "bob@x.io" 1 (ledger 1 (2 ^ 63 - 1))
      = (none, ⟨[alice 0, bob (-(2 ^ 63))], [], 2⟩) ∧
    (bob (-(2 ^ 63))).Balance ≠ (bob (2 ^ 63 - 1)).Balance + 1 ∧
    (alice 0).Balance + (bob (-(2 ^ 63))).Balance
      ≠ (alice 1).Balance + (bob (2 ^ 63 - 1)).Balance := by
  decide

theorem TransferToAccount_insufficient_healthy (sched : Sched) (c : Client) (s r : String)
    (su ru : User) (amount : Int) (hc : c.healthy) (hs : lookup c.table s = some su)
    (hr : lookup c.table r = some ru) (hse : s ≠ "") (hre : r ≠ "")
    (hlt : su.Balance < amount) :
    (TransferToAccount sched s r amount c).1 = some ErrInsufficientBalance := by
  obtain ⟨res, c', ht, _, hcase⟩ := TransferToAccount_healthy sched s r amount c hc
  rw [ht]
  rcases hcase with ⟨k, hk, habs, _, _⟩ | ⟨_, _, _, _, _, _, _, hres, _⟩ |
      ⟨su1, _, hs1, _, _, _, hnlt, _, _, _⟩
  · rcases hk with rfl | rfl
    · rcases habs with h | h
      · rw [hs] at h; simp at h
      · exact absurd h hse
    · rcases habs with h | h
      · rw [hr] at h; simp at h
      · exact absurd h hre
  · exact hres
  · rw [hs] at hs1
    cases hs1
    exact absurd hlt hnlt

/-- C2. A transfer between two present accounts with `sender.balance < amount` returns an
error and issues no write, whatever the store failures: the table and the number of `PutItem`
requests are unchanged. With no store failure the error is `ErrInsufficientBalance`. -/
theorem TransferToAccount_insufficient (sched : Sched) (c : Client) (s r : String)
    (su ru : User) (amount : Int) (hs : lookup c.table s = some su)
    (hr : lookup c.table r = some ru) (hse : s ≠ "") (hre : r ≠ "")
    (hlt : su.Balance < amount) :
    (∃ e, (TransferToAccount sched s r amount c).1 = some e) ∧
    (TransferToAccount sched s r amount c).2.table = c.table ∧
    (TransferToAccount sched s r amount c).2.puts = c.puts ∧
    (c.healthy →
      (TransferToAccount sched s r amount c).1 = some ErrInsufficientBalance) := by
  obtain ⟨e, c1, ht, hsame⟩ := TransferToAccount_insufficient_any sched s r amount c hs hlt
  refine ⟨⟨e, by rw [ht]⟩, by rw [ht]; exact hsame.1, by rw [ht]; exact hsame.2, ?_⟩
  intro hc
  exact TransferToAccount_insufficient_healthy sched c s r su ru amount hc hs hr hse hre hlt

/-- C2: the scenario sender 10, amount 30 gives `ErrInsufficientBalance`, sender still 10. -/
theorem TransferToAccount_insufficient_witness :
    (TransferToAccount ⟨false, true⟩ "alice@x.io" "bob@x.io" 30 (ledger 10 50)).1
      = some ErrInsufficientBalance ∧
    (TransferToAccount ⟨false, true⟩ "alice@x.io" "bob@x.io" 30 (ledger 10 50)).2.table
      = (ledger 10 50).table ∧
    lookup (TransferToAccount ⟨false, true⟩ "alice@x.io" "bob@x.io" 30 (ledger 10 50)).2.table
      "alice@x.io" = some (alice 10) :=
  ⟨(TransferToAccount_insufficient ⟨false, true⟩ (ledger 10 50) "alice@x.io" "bob@x.io"
      (alice 10) (bob 50) 30 (by decide) (by decide) (by decide) (by decide)
      (by decide)).2.2.2 (by decide),
   (TransferToAccount_insufficient ⟨false, true⟩ (ledger 10 50) "alice@x.io" "bob@x.io"
      (alice 10) (bob 50) 30 (by decide) (by decide) (by decide) (by decide)
      (by decide)).2.1,
   by decide⟩

theorem TransferToAccount_absent_healthy (sched : Sched) (c : Client) (s r : String)
    (amount : Int) (hc : c.healthy)
    (habs : lookup c.table s = none ∨ lookup c.table r = none) :
    ∃ k, (k = s ∨ k = r) ∧ (lookup c.table k = none ∨ k = "") ∧
      (TransferToAccount sched s r amount c).1 = some (notFound k) := by
  obtain ⟨res, c', ht, _, hcase⟩ := TransferToAccount_healthy sched s r amount c hc
  rw [ht]
  rcases hcase with ⟨k, hk, hka, hres, _⟩ | ⟨_, _, hs1, hr1, _, _, _, _, _⟩ |
      ⟨_, _, hs1, hr1, _, _, _, _, _, _⟩
  · exact ⟨k, hk, hka, hres⟩
  · rcases habs with h | h
    · rw [hs1] at h; simp at h
    · rw [hr1] at h; simp at h
  · rcases habs with h | h
    · rw [hs1] at h; simp at h
    · rw [hr1] at h; simp at h

/-- C3. A transfer whose sender or recipient has no record returns an error and issues no
write, whatever the store failures: the table and the number of `PutItem` requests are
unchanged. With no store failure the error is the not-found error of an absent (or empty)
identifier of the two. -/
theorem TransferToAccount_absent (sched : Sched) (c : Client) (s r : String) (amount : Int)
    (habs : lookup c.table s = none ∨ lookup c.table r = none) :
    (∃ e, (TransferToAccount sched s r amount c).1 = some e) ∧
    (TransferToAccount sched s r amount c).2.table = c.table ∧
    (TransferToAccount sched s r amount c).2.puts = c.puts ∧
    (c.healthy →
      ∃ k, (k = s ∨ k = r) ∧ (lookup c.table k = none ∨ k = "") ∧
        (TransferToAccount sched s r amount c).1 = some (notFound k)) := by
  obtain ⟨e, c1, ht, hsame⟩ := TransferToAccount_absent_any sched s r amount c habs
  refine ⟨⟨e, by rw [ht]⟩, by rw [ht]; exact hsame.1, by rw [ht]; exact hsame.2, ?_⟩
  intro hc
  exact TransferToAccount_absent_healthy sched c s r amount hc habs

/-- C3: a transfer to an identifier with no record, on the store alice 100, bob 50. -/
theorem TransferToAccount_absent_witness :
    (TransferToAccount ⟨true, true⟩ "alice@x.io" "carol@x.io" 30 (ledger 100 50)).2.table
      = (ledger 100 50).table ∧
    (TransferToAccount ⟨true, true⟩ "alice@x.io" "carol@x.io" 30 (ledger 100 50)).2.puts
      = (ledger 100 50).puts ∧
    (TransferToAccount ⟨true, true⟩ "alice@x.io" "carol@x.io" 30 (ledger 100 50)).1
      = some "User with email carol@x.io not found" :=
  ⟨(TransferToAccount_absent ⟨true, true⟩ (ledger 100 50) "alice@x.io" "carol@x.io" 30
      (Or.inr (by decide))).2.1,
   (TransferToAccount_absent ⟨true, true⟩ (ledger 100 50) "alice@x.io" "carol@x.io" 30
      (Or.inr (by decide))).2.2.1,
   by decide⟩

/-- C4. For a transfer (`amount > 0`, sender and recipient distinct) whose two fetches both
report a nil error and that passes the balance check: if the sender's update succeeds and the
recipient's update then fails with `e`, the transfer returns exactly `e`, the stored sender
balance is already the old balance minus `amount`, and the stored recipient record is the one
fetched: the only change to the table is the debit. -/
theorem TransferToAccount_partial_failure (sched : Sched) (c c1 c2 c3 : Client)
    (s r : String) (su ru x : User) (amount : Int) (e : String)
    (hpos : 0 < amount) (hne : s ≠ r) (hsb : isInt64 su.Balance)
    (hf : fetchBoth sched s r c = ((none, some su), (none, some ru), c1))
    (hge : ¬ su.Balance < amount)
    (h1 : UpdateUser (debited su amount) c1 = (.ok x, c2))
    (h2 : UpdateUser (credited ru amount) c2 = (.error e, c3)) :
    TransferToAccount sched s r amount c = (some e, c3) ∧
    (∃ su', lookup c3.table s = some su' ∧ su'.Balance = su.Balance - amount) ∧
    lookup c.table r = some ru ∧ lookup c3.table r = some ru ∧
    c3.table = store c.table (debited su amount) := by
  obtain ⟨su, ru0, hsu, hru, hls, hlr, _, _, hsame⟩ := fetchBoth_nil hf
  cases hsu; cases hru
  obtain ⟨_, t2, _, _, _⟩ := UpdateUser_ok h1
  have t3 := UpdateUser_error h2
  have htab : c3.table = store c.table (debited su amount) := by rw [t3, t2, hsame.1]
  have hes := lookup_email hls
  refine ⟨?_, ⟨debited su amount, ?_, debit_exact hsb hpos hge⟩, hlr, ?_, htab⟩
  · rw [TransferToAccount_fetched amount hf]
    simp [settle, hge, h1, h2]
  · rw [htab]
    have := lookup_store_self c.table (debited su amount)
    rw [show (debited su amount).Email = s from hes] at this
    exact this
  · rw [htab, lookup_store_other _ _ _ (by show su.Email ≠ r; rw [hes]; exact hne)]
    exact hlr

/-- C4: on alice 100, bob 50, with the recipient's `PutItem` failing, a transfer of 30
returns that failure and leaves alice 70, bob 50. -/
theorem TransferToAccount_partial_failure_witness :
    TransferToAccount ⟨true, true⟩ "alice@x.io" "bob@x.io" 30 flakyLedger
      = (some "RequestLimitExceeded", ⟨[alice 70, bob 50], [], 2⟩) ∧
    (∃ su', lookup [alice 70, bob 50] "alice@x.io" = some su' ∧
      su'.Balance = (alice 100).Balance - 30) ∧
    lookup flakyLedger.table "bob@x.io" = some (bob 50) ∧
    lookup [alice 70, bob 50] "bob@x.io" = some (bob 50) ∧
    [alice 70, bob 50] = store flakyLedger.table (debited (alice 100) 30) :=
  TransferToAccount_partial_failure ⟨true, true⟩ flakyLedger
    ⟨[alice 100, bob 50], [none, none, none, some "RequestLimitExceeded"], 0⟩
    ⟨[alice 70, bob 50], [none, some "RequestLimitExceeded"], 1⟩
    ⟨[alice 70, bob 50], [], 2⟩
    "alice@x.io" "bob@x.io" (alice 100) (bob 50) (alice 70) 30 "RequestLimitExceeded"
    (by decide) (by decide) (by decide) (by rfl) (by decide) (by rfl) (by rfl)

/-! ## Claims about `CreateUser` and `FundUserAccount` -/

theorem CreateUser_present {user existing : User} (now : String) (c : Client)
    (hc : c.healthy) (hl : lookup c.table user.Email = some existing) (hk : user.Email ≠ "") :
    ∃ c', CreateUser user now c = (.error ErrUserAlreadyExists, c') ∧ sameStore c c' ∧
      c'.healthy := by
  obtain ⟨c1, hf, hs, hh⟩ := FetchUser_healthy user.Email c hc
  have hw : existing.Email.isEmpty = false := by
    rw [lookup_email hl]; exact isEmpty_eq_false hk
  exact ⟨c1, by simp [CreateUser, hf, hl, hw], hs, hh⟩

theorem createRepeatedly_present {user existing : User} (nows : List String) (c : Client)
    (hc : c.healthy) (hl : lookup c.table user.Email = some existing) (hk : user.Email ≠ "") :
    (createRepeatedly user nows c).1
        = List.replicate nows.length (.error ErrUserAlreadyExists) ∧
      sameStore c (createRepeatedly user nows c).2 := by
  induction nows generalizing c with
  | nil => exact ⟨rfl, sameStore_refl c⟩
  | cons now nows ih =>
    obtain ⟨c1, h1, hs1, hh1⟩ := CreateUser_present now c hc hl hk
    have hl1 : lookup c1.table user.Email = some existing := by rw [hs1.1]; exact hl
    obtain ⟨ihr, ihs⟩ := ih c1 hh1 hl1
    unfold createRepeatedly
    rw [h1]
    refine ⟨?_, ?_⟩
    · show _ :: (createRepeatedly user nows c1).1 = _
      rw [ihr]; rfl
    · exact sameStore_trans hs1 ihs

/-- Whatever the store failures, `CreateUser` for an identifier that has a stored record
returns an error and writes nothing. -/
theorem CreateUser_present_any {user existing : User} (now : String) (c : Client)
    (hl : lookup c.table user.Email = some existing) (hk : user.Email ≠ "") :
    ∃ e c1, CreateUser user now c = (.error e, c1) ∧ sameStore c c1 := by
  have hs := FetchUser_sameStore user.Email c
  cases hf : FetchUser user.Email c with
  | mk res c1 =>
    rw [hf] at hs
    cases res with
    | error e => exact ⟨e, c1, by simp [CreateUser, hf], hs⟩
    | ok ex =>
      have hex := FetchUser_ok hf
      rw [hl] at hex
      simp only [Option.getD_some] at hex
      have hw : ex.Email.isEmpty = false := by
        rw [hex, lookup_email hl]; exact isEmpty_eq_false hk
      exact ⟨ErrUserAlreadyExists, c1, by simp [CreateUser, hf, hw], hs⟩

theorem createRepeatedly_present_any {user existing : User} (nows : List String) (c : Client)
    (hl : lookup c.table user.Email = some existing) (hk : user.Email ≠ "") :
    (∀ x ∈ (createRepeatedly user nows c).1, ∃ e, x = .error e) ∧
      sameStore c (createRepeatedly user nows c).2 := by
  induction nows generalizing c with
  | nil => exact ⟨by simp [createRepeatedly], sameStore_refl c⟩
  | cons now nows ih =>
    obtain ⟨e, c1, h1, hs1⟩ := CreateUser_present_any now c hl hk
    have hl1 : lookup c1.table user.Email = some existing := by rw [hs1.1]; exact hl
    obtain ⟨ihr, ihs⟩ := ih c1 hl1
    unfold createRepeatedly
    rw [h1]
    refine ⟨?_, sameStore_trans hs1 ihs⟩
    intro x hx
    have hx' : x ∈ Except.error e :: (createRepeatedly user nows c1).1 := hx
    rcases List.mem_cons.1 hx' with h | h
    · exact ⟨e, h⟩
    · exact ihr x h

/-- C5. `CreateUser` for a record whose identifier already has a stored record returns an
error and issues no write, whatever the store failures and however many times it is repeated:
the table, with the existing record in it, and the number of `PutItem` requests are unchanged.
With no store failure the error is `ErrUserAlreadyExists`, at every attempt. -/
theorem CreateUser_existing (user existing : User) (now : String) (nows : List String)
    (c : Client) (hl : lookup c.table user.Email = some existing) (hk : user.Email ≠ "") :
    (∃ e, (CreateUser user now c).1 = .error e) ∧
    (CreateUser user now c).2.table = c.table ∧
    (CreateUser user now c).2.puts = c.puts ∧
    (∀ x ∈ (createRepeatedly user nows c).1, ∃ e, x = .error e) ∧
    (createRepeatedly user nows c).2.table = c.table ∧
    (createRepeatedly user nows c).2.puts = c.puts ∧
    lookup (createRepeatedly user nows c).2.table user.Email = some existing ∧
    (c.healthy →
      (CreateUser user now c).1 = .error ErrUserAlreadyExists ∧
      (createRepeatedly user nows c).1
        = List.replicate nows.length (.error ErrUserAlreadyExists)) := by
  obtain ⟨e, c1, h1, hs1⟩ := CreateUser_present_any now c hl hk
  obtain ⟨hr, hs⟩ := createRepeatedly_present_any nows c hl hk
  refine ⟨⟨e, by rw [h1]⟩, by rw [h1]; exact hs1.1, by rw [h1]; exact hs1.2, hr, hs.1, hs.2,
    by rw [hs.1]; exact hl, ?_⟩
  intro hc
  obtain ⟨c2, h2, _, _⟩ := CreateUser_present now c hc hl hk
  exact ⟨by rw [h2], (createRepeatedly_present nows c hc hl hk).1⟩

/-- C5: creating alice again, three times, on the store alice 100, bob 50. -/
theorem CreateUser_existing_witness :
    (CreateUser (alice 0) "2025-05-05T05:05:05Z" (ledger 100 50)).1
      = .error ErrUserAlreadyExists ∧
    (createRepeatedly (alice 0) ["t1", "t2", "t3"] (ledger 100 50)).1
      = List.replicate ["t1", "t2", "t3"].length (.error ErrUserAlreadyExists) ∧
    (createRepeatedly (alice 0) ["t1", "t2", "t3"] (ledger 100 50)).2.table
      = (ledger 100 50).table ∧
    lookup (createRepeatedly (alice 0) ["t1", "t2", "t3"] (ledger 100 50)).2.table
      (alice 0).Email = some (alice 100) :=
  ⟨((CreateUser_existing (alice 0) (alice 100) "2025-05-05T05:05:05Z" ["t1", "t2", "t3"]
      (ledger 100 50) (by decide) (by decide)).2.2.2.2.2.2.2 (by decide)).1,
   ((CreateUser_existing (alice 0) (alice 100) "2025-05-05T05:05:05Z" ["t1", "t2", "t3"]
      (ledger 100 50) (by decide) (by decide)).2.2.2.2.2.2.2 (by decide)).2,
   (CreateUser_existing (alice 0) (alice 100) "2025-05-05T05:05:05Z" ["t1", "t2", "t3"]
      (ledger 100 50) (by decide) (by decide)).2.2.2.2.1,
   (CreateUser_existing (alice 0) (alice 100) "2025-05-05T05:05:05Z" ["t1", "t2", "t3"]
      (ledger 100 50) (by decide) (by decide)).2.2.2.2.2.2.1⟩

theorem FundUserAccount_absent {email : String} (amount : Int) (c : Client) (hc : c.healthy)
    (hl : lookup c.table email = none) :
    ∃ c', FundUserAccount email amount c = (some ErrUserDoesNotExist, c') ∧ sameStore c c' ∧
      c'.healthy := by
  obtain ⟨c1, hf, hs, hh⟩ := FetchUser_healthy email c hc
  have hz : User.zero.Email.isEmpty = true := by decide
  exact ⟨c1, by simp [FundUserAccount, hf, hl, hz], hs, hh⟩

theorem FundUserAccount_present {email : String} {u : User} (amount : Int) (c : Client)
    (hc : c.healthy) (hl : lookup c.table email = some u) (hk : email ≠ "") :
    ∃ c', FundUserAccount email amount c = (none, c') ∧
      c'.table = store c.table (credited u amount) ∧ c'.puts = c.puts + 1 ∧ c'.healthy := by
  obtain ⟨c1, hf, hs, hh⟩ := FetchUser_healthy email c hc
  have he := lookup_email hl
  have hw : u.Email.isEmpty = false := by rw [he]; exact isEmpty_eq_false hk
  have hl1 : lookup c1.table (credited u amount).Email = some u := by
    show lookup c1.table u.Email = some u
    rw [hs.1, he]; exact hl
  obtain ⟨c2, h2, t2, p2, hh2⟩ := UpdateUser_healthy c1 hh hl1
    (by show u.Email ≠ ""; rw [he]; exact hk)
  refine ⟨c2, ?_, by rw [t2, hs.1], by rw [p2, hs.2], hh2⟩
  have h2' : UpdateUser ⟨u.Email, u.FullName, u.CreatedAt, wrapInt64 (u.Balance + amount)⟩ c1
      = (.ok (credited u amount), c2) := h2
  simp [FundUserAccount, hf, hl, hw, h2']

/-- C6, amended. On a healthy store, `FundUserAccount` fails with `ErrUserDoesNotExist` and
writes nothing when the account is absent; otherwise it succeeds and the stored record keeps
its identifier, display name and creation time, every other record is unchanged, and the
stored balance is the `int64` sum of the old balance and `amount`: the old balance plus
`amount` whenever that sum is an `int64`. -/
theorem FundUserAccount_credits (email : String) (amount : Int) (c : Client)
    (hc : c.healthy) :
    (lookup c.table email = none →
      (FundUserAccount email amount c).1 = some ErrUserDoesNotExist ∧
      (FundUserAccount email amount c).2.table = c.table ∧
      (FundUserAccount email amount c).2.puts = c.puts) ∧
    (∀ u, lookup c.table email = some u → email ≠ "" →
      (FundUserAccount email amount c).1 = none ∧
      lookup (FundUserAccount email amount c).2.table email
        = some ⟨u.Email, u.FullName, u.CreatedAt, wrapInt64 (u.Balance + amount)⟩ ∧
      (isInt64 (u.Balance + amount) →
        lookup (FundUserAccount email amount c).2.table email
          = some ⟨u.Email, u.FullName, u.CreatedAt, u.Balance + amount⟩) ∧
      ∀ k, k ≠ email →
        lookup (FundUserAccount email amount c).2.table k = lookup c.table k) := by
  constructor
  · intro hl
    obtain ⟨c1, h1, hs, _⟩ := FundUserAccount_absent amount c hc hl
    rw [h1]
    exact ⟨rfl, hs.1, hs.2⟩
  · intro u hl hk
    obtain ⟨c1, h1, t1, _, _⟩ := FundUserAccount_present amount c hc hl hk
    rw [h1]
    have he := lookup_email hl
    have hself : lookup c1.table email = some (credited u amount) := by
      rw [t1]
      have := lookup_store_self c.table (credited u amount)
      rw [show (credited u amount).Email = email from he] at this
      exact this
    refine ⟨rfl, hself, ?_, ?_⟩
    · intro hfit
      show lookup c1.table email = _
      rw [hself]
      show some (User.mk _ _ _ _) = _
      rw [wrapInt64_of_isInt64 hfit]
    · intro k hne
      show lookup c1.table k = _
      rw [t1]
      exact lookup_store_other _ _ _ (by
        show u.Email ≠ k
        rw [he]; exact fun h => hne h.symm)

/-- C6: funding bob with 25 on the store alice 100, bob 50 stores bob 75. -/
theorem FundUserAccount_credits_witness :
    (ledger 100 50).healthy ∧
    (FundUserAccount "bob@x.io" 25 (ledger 100 50)).1 = none ∧
    lookup (FundUserAccount "bob@x.io" 25 (ledger 100 50)).2.table "bob@x.io"
      = some (bob 75) :=
  ⟨by decide,
   (((FundUserAccount_credits "bob@x.io" 25 (ledger 100 50) (by decide)).2 (bob 50)
      (by decide) (by decide))).1,
   (((FundUserAccount_credits "bob@x.io" 25 (ledger 100 50) (by decide)).2 (bob 50)
      (by decide) (by decide))).2.2.1 (by decide)⟩

/-- C6 as stated fails when the credit overflows `int64`: funding the present account bob,
balance `2^63 - 1`, with amount 1 on a healthy store succeeds and stores the balance `-2^63`,
which is not the old balance plus 1. -/
theorem FundUserAccount_credit_overflow :
    (ledger 100 (2 ^ 63 - 1)).healthy ∧
    lookup (ledger 100 (2 ^ 63 - 1)).table "bob@x.io" = some (bob (2 ^ 63 - 1)) ∧
    FundUserAccount "bob@x.io" 1 (ledger 100 (2 ^ 63 - 1))
      = (none, ⟨[alice 100, bob (-(2 ^ 63))], [], 1⟩) ∧
    (bob (-(2 ^ 63))).Balance ≠ (bob (2 ^ 63 - 1)).Balance + 1 := by
  decide

/-! ## The total of the balances -/

theorem map_replace_of_absent {t : List User} {item : User}
    (h : ∀ u ∈ t, u.Email ≠ item.Email) :
    t.map (fun u => if u.Email == item.Email then item else u) = t := by
  induction t with
  | nil => rfl
  | cons a t ih =>
    have ha : (a.Email == item.Email) = false := by
      simpa using h a (List.mem_cons_self _ _)
    rw [List.map_cons, ih (fun u hu => h u (List.mem_cons_of_mem _ hu))]
    simp [ha]

theorem total_map_replace {t : List User} {item old : User}
    (hnd : (t.map User.Email).Nodup) (hl : lookup t item.Email = some old) :
    total (t.map (fun u => if u.Email == item.Email then item else u))
      = total t - old.Balance + item.Balance := by
  induction t with
  | nil => simp [lookup] at hl
  | cons a t ih =>
    rw [List.map_cons, List.nodup_cons] at hnd
    rw [lookup_cons] at hl
    by_cases ha : a.Email = item.Email
    · rw [if_pos ha] at hl
      cases hl
      have habs : ∀ u ∈ t, u.Email ≠ item.Email := by
        intro u hu he
        exact hnd.1 (by rw [ha, ← he]; exact List.mem_map_of_mem _ hu)
      rw [List.map_cons, map_replace_of_absent habs]
      simp [total, ha]
      ring
    · rw [if_neg ha] at hl
      have hb : (a.Email == item.Email) = false := by simpa using ha
      have := ih hnd.2 hl
      rw [List.map_cons]
      simp only [hb, Bool.false_eq_true, if_false]
      simp only [total, List.map_cons, List.sum_cons] at this ⊢
      rw [this]; ring

theorem total_store {t : List User} {item old : User}
    (hnd : (t.map User.Email).Nodup) (hl : lookup t item.Email = some old) :
    total (store t item) = total t - old.Balance + item.Balance := by
  unfold store
  rw [hl]
  simp only [Option.isSome_some, if_true]
  exact total_map_replace hnd hl

theorem store_emails {t : List User} {item old : User}
    (hl : lookup t item.Email = some old) :
    (store t item).map User.Email = t.map User.Email := by
  unfold store
  rw [hl]
  simp only [Option.isSome_some, if_true, List.map_map]
  apply List.map_congr_left
  intro u _
  by_cases hu : u.Email = item.Email
  · simp [hu]
  · simp [hu]

/-! ## The transfer of an account to itself -/

/-- C10, amended. `TransferToAccount` does not compare its two identifiers: on a healthy
store, for a present account with `balance ≥ amount > 0`, a transfer from the account to
itself returns no error and stores the `int64` sum of the old balance and `amount` (the
credit, computed from the fetched balance, overwrites the debit); whenever that sum stays
below `2^63` the stored balance is the old balance plus `amount` and, the identifiers of the
table being unique, the total of all balances grows by `amount`. The handler `Transfer`
answers 400 on equal identifiers and leaves the client untouched. -/
theorem TransferToAccount_self (sched : Sched) (c : Client) (s : String) (su : User)
    (amount : Int) (hc : c.healthy) (hs : lookup c.table s = some su) (hse : s ≠ "")
    (hsb : isInt64 su.Balance) (hpos : 0 < amount) (hge : amount ≤ su.Balance) :
    (TransferToAccount sched s s amount c).1 = none ∧
    lookup (TransferToAccount sched s s amount c).2.table s
      = some ⟨su.Email, su.FullName, su.CreatedAt, wrapInt64 (su.Balance + amount)⟩ ∧
    (su.Balance + amount < 2 ^ 63 →
      lookup (TransferToAccount sched s s amount c).2.table s
        = some ⟨su.Email, su.FullName, su.CreatedAt, su.Balance + amount⟩ ∧
      ((c.table.map User.Email).Nodup →
        total (TransferToAccount sched s s amount c).2.table = total c.table + amount)) ∧
    (∀ (IsEmailValid : String → Bool) (sched' : Sched) (req : transferRequest) (c' : Client),
      req.SenderEmail = req.RecipientEmail →
      (BankingHandler.Transfer IsEmailValid sched' (.ok req) c').1.1 = 400 ∧
      (BankingHandler.Transfer IsEmailValid sched' (.ok req) c').2 = c') := by
  obtain ⟨res, c', ht, _, hcase⟩ := TransferToAccount_healthy sched s s amount c hc
  rw [ht]
  have hnlt : ¬ su.Balance < amount := not_lt.mpr hge
  have hes := lookup_email hs
  refine ⟨?_, ?_, ?_, ?_⟩
  · rcases hcase with ⟨k, hk, habs, _, _⟩ | ⟨su1, _, hs1, _, _, _, hlt, _, _⟩ |
        ⟨_, _, _, _, _, _, _, hres, _, _⟩
    · have hk' : k = s := by rcases hk with h | h <;> exact h
      subst hk'
      rcases habs with h | h
      · rw [hs] at h; simp at h
      · exact absurd h hse
    · rw [hs] at hs1; cases hs1; exact absurd hlt hnlt
    · exact hres
  · rcases hcase with ⟨k, hk, habs, _, _⟩ | ⟨su1, _, hs1, _, _, _, hlt, _, _⟩ |
        ⟨su1, ru1, hs1, hr1, _, _, _, _, htab, _⟩
    · have hk' : k = s := by rcases hk with h | h <;> exact h
      subst hk'
      rcases habs with h | h
      · rw [hs] at h; simp at h
      · exact absurd h hse
    · rw [hs] at hs1; cases hs1; exact absurd hlt hnlt
    · rw [hs] at hs1 hr1; cases hs1; cases hr1
      show lookup c'.table s = some (credited su amount)
      rw [htab]
      have := lookup_store_self (store c.table (debited su amount)) (credited su amount)
      rw [show (credited su amount).Email = s from hes] at this
      exact this
  · intro hfit
    rcases hcase with ⟨k, hk, habs, _, _⟩ | ⟨su1, _, hs1, _, _, _, hlt, _, _⟩ |
        ⟨su1, ru1, hs1, hr1, _, _, _, _, htab, _⟩
    · have hk' : k = s := by rcases hk with h | h <;> exact h
      subst hk'
      rcases habs with h | h
      · rw [hs] at h; simp at h
      · exact absurd h hse
    · rw [hs] at hs1; cases hs1; exact absurd hlt hnlt
    · rw [hs] at hs1 hr1; cases hs1; cases hr1
      have hcr : (credited su amount).Balance = su.Balance + amount :=
        credit_exact hsb hpos hfit
      have hl1 : lookup c.table (debited su amount).Email = some su := by
        show lookup c.table su.Email = some su
        rw [hes]; exact hs
      have hl2 : lookup (store c.table (debited su amount)) (credited su amount).Email
          = some (debited su amount) := lookup_store_self c.table (debited su amount)
      constructor
      · show lookup c'.table s = _
        rw [htab]
        have := lookup_store_self (store c.table (debited su amount)) (credited su amount)
        rw [show (credited su amount).Email = s from hes] at this
        rw [this]
        show some (User.mk _ _ _ _) = _
        rw [show wrapInt64 (su.Balance + amount) = su.Balance + amount from hcr]
      · intro hnd
        have hnd2 : ((store c.table (debited su amount)).map User.Email).Nodup := by
          rw [store_emails hl1]; exact hnd
        show total c'.table = _
        rw [htab, total_store hnd2 hl2, total_store hnd hl1, hcr]
        ring
  · intro IsEmailValid sched' req c0 heq
    unfold BankingHandler.Transfer
    simp only
    split
    · exact ⟨rfl, rfl⟩
    · split
      · exact ⟨rfl, rfl⟩
      · rw [if_pos (by simpa using heq)]
        exact ⟨rfl, rfl⟩

/-- C10: alice, balance 100, transfers 30 to herself and ends with 130; the store total goes
from 150 to 180. -/
theorem TransferToAccount_self_witness :
    (TransferToAccount ⟨true, true⟩ "alice@x.io" "alice@x.io" 30 (ledger 100 50)).1 = none ∧
    lookup (TransferToAccount ⟨true, true⟩ "alice@x.io" "alice@x.io" 30 (ledger 100 50)).2.table
      "alice@x.io" = some (alice 130) ∧
    total (TransferToAccount ⟨true, true⟩ "alice@x.io" "alice@x.io" 30 (ledger 100 50)).2.table
      = total (ledger 100 50).table + 30 :=
  ⟨(TransferToAccount_self ⟨true, true⟩ (ledger 100 50) "alice@x.io" (alice 100) 30
      (by decide) (by decide) (by decide) (by decide) (by decide) (by decide)).1,
   ((TransferToAccount_self ⟨true, true⟩ (ledger 100 50) "alice@x.io" (alice 100) 30
      (by decide) (by decide) (by decide) (by decide) (by decide) (by decide)).2.2.1
      (by decide)).1,
   ((TransferToAccount_self ⟨true, true⟩ (ledger 100 50) "alice@x.io" (alice 100) 30
      (by decide) (by decide) (by decide) (by decide) (by decide) (by decide)).2.2.1
      (by decide)).2 (by decide)⟩

/-- C10 as stated fails when the credit overflows `int64`: alice, present with balance
`2^63 - 1 ≥ 1 > 0`, transfers 1 to herself; the transfer returns no error and stores the
balance `-2^63`, not the old balance plus 1, and the total of all balances falls. -/
theorem TransferToAccount_self_overflow :
    richLedger.healthy ∧
    lookup richLedger.table "alice@x.io" = some (alice (2 ^ 63 - 1)) ∧
    (0 : Int) < 1 ∧ (1 : Int) ≤ (alice (2 ^ 63 - 1)).Balance ∧
    TransferToAccount ⟨true, true⟩ "alice@x.io" "alice@x.io" 1 richLedger
      = (none, ⟨[alice (-(2 ^ 63))], [], 2⟩) ∧
    (alice (-(2 ^ 63))).Balance ≠ (alice (2 ^ 63 - 1)).Balance + 1 ∧
    total [alice (-(2 ^ 63))] < total richLedger.table := by
  decide

/-! ## Sequential use: the balances stay non-negative unless a credit overflows -/

theorem nonNegative_store {t : List User} {item : User} (ht : nonNegative t)
    (hi : 0 ≤ item.Balance ∧ item.Balance < 2 ^ 63) : nonNegative (store t item) := by
  intro u hu
  rcases mem_store hu with h | h
  · exact ht u h
  · rw [h]; exact hi

theorem CreateUser_healthy (user : User) (now : String) (c : Client) (hc : c.healthy) :
    ∃ res c', CreateUser user now c = (res, c') ∧ c'.healthy ∧
      (c'.table = c.table ∨
        c'.table = store c.table ⟨user.Email, user.FullName, now, 0⟩) := by
  obtain ⟨c1, hf, hs, hh⟩ := FetchUser_healthy user.Email c hc
  cases he : ((lookup c.table user.Email).getD User.zero).Email.isEmpty with
  | false =>
    exact ⟨.error ErrUserAlreadyExists, c1, by simp [CreateUser, hf, he], hh, Or.inl hs.1⟩
  | true =>
    obtain ⟨c2, hp, t2, _, hh2⟩ := PutItem_healthy c1 ⟨user.Email, user.FullName, now, 0⟩ hh
    exact ⟨.ok ⟨user.Email, user.FullName, now, 0⟩, c2, by simp [CreateUser, hf, he, hp], hh2,
      Or.inr (by rw [t2, hs.1])⟩

theorem FundUserAccount_healthy (email : String) (amount : Int) (c : Client)
    (hc : c.healthy) :
    ∃ res c', FundUserAccount email amount c = (res, c') ∧ c'.healthy ∧
      (c'.table = c.table ∨
        ∃ u, lookup c.table email = some u ∧ c'.table = store c.table (credited u amount)) := by
  cases hl : lookup c.table email with
  | none =>
    obtain ⟨c1, h1, hs, hh⟩ := FundUserAccount_absent amount c hc hl
    exact ⟨_, c1, h1, hh, Or.inl hs.1⟩
  | some u =>
    by_cases hk : email = ""
    · obtain ⟨c1, hf, hs, hh⟩ := FetchUser_healthy email c hc
      have hw : u.Email.isEmpty = true := by
        rw [lookup_email hl, hk]; decide
      exact ⟨some ErrUserDoesNotExist, c1, by simp [FundUserAccount, hf, hl, hw], hh,
        Or.inl hs.1⟩
    · obtain ⟨c1, h1, t1, _, hh⟩ := FundUserAccount_present amount c hc hl hk
      exact ⟨_, c1, h1, hh, Or.inr ⟨u, rfl, t1⟩⟩

theorem fits_some {t : List User} {email : String} {amount : Int} {u : User}
    (hf : fits t email amount = true) (hl : lookup t email = some u) :
    u.Balance + amount < 2 ^ 63 := by
  unfold fits at hf
  rw [hl] at hf
  simpa using hf

/-- One valid call whose credit fits keeps a healthy store healthy and its balances
non-negative. -/
theorem Op.run_nonNegative (op : Op) (c : Client) (hc : c.healthy)
    (hn : nonNegative c.table) (hv : op.valid) (hfit : op.creditFits c = true) :
    (op.run c).healthy ∧ nonNegative (op.run c).table := by
  cases op with
  | create user now =>
    obtain ⟨res, c', h, hh, ht⟩ := CreateUser_healthy user now c hc
    show (CreateUser user now c).2.healthy ∧ nonNegative (CreateUser user now c).2.table
    rw [h]
    refine ⟨hh, ?_⟩
    rcases ht with ht | ht
    · show nonNegative c'.table
      rw [ht]; exact hn
    · show nonNegative c'.table
      rw [ht]
      exact nonNegative_store hn ⟨le_refl _, by norm_num⟩
  | fund email amount =>
    obtain ⟨res, c', h, hh, ht⟩ := FundUserAccount_healthy email amount c hc
    show (FundUserAccount email amount c).2.healthy ∧
      nonNegative (FundUserAccount email amount c).2.table
    rw [h]
    refine ⟨hh, ?_⟩
    rcases ht with ht | ⟨u, hl, ht⟩
    · show nonNegative c'.table
      rw [ht]; exact hn
    · show nonNegative c'.table
      rw [ht]
      have hu := hn u (lookup_mem hl)
      have hpos : 0 < amount := hv
      have hlt : u.Balance + amount < 2 ^ 63 := fits_some hfit hl
      have hcr : (credited u amount).Balance = u.Balance + amount :=
        credit_exact ⟨by have := hu.1; omega, hu.2⟩ hpos hlt
      refine nonNegative_store hn ?_
      rw [hcr]
      exact ⟨by have := hu.1; omega, hlt⟩
  | transfer sched s r amount =>
    obtain ⟨res, c', h, hh, hcase⟩ := TransferToAccount_healthy sched s r amount c hc
    show (TransferToAccount sched s r amount c).2.healthy ∧
      nonNegative (TransferToAccount sched s r amount c).2.table
    rw [h]
    refine ⟨hh, ?_⟩
    show nonNegative c'.table
    rcases hcase with ⟨_, _, _, _, hsame⟩ | ⟨_, _, _, _, _, _, _, _, hsame⟩ |
        ⟨su, ru, hs, hr, _, _, hnlt, _, htab, _⟩
    · rw [hsame.1]; exact hn
    · rw [hsame.1]; exact hn
    · rw [htab]
      have hsu := hn su (lookup_mem hs)
      have hru := hn ru (lookup_mem hr)
      have hpos : 0 < amount := hv.1
      have hlt : ru.Balance + amount < 2 ^ 63 := fits_some hfit hr
      have hdb : (debited su amount).Balance = su.Balance - amount :=
        debit_exact ⟨by have := hsu.1; omega, hsu.2⟩ hpos hnlt
      have hcr : (credited ru amount).Balance = ru.Balance + amount :=
        credit_exact ⟨by have := hru.1; omega, hru.2⟩ hpos hlt
      refine nonNegative_store (nonNegative_store hn ?_) ?_
      · rw [hdb]
        exact ⟨by omega, by have := hsu.2; omega⟩
      · rw [hcr]
        exact ⟨by have := hru.1; omega, hlt⟩

/-- C9, amended. Starting from a healthy store in which every balance is a non-negative
`int64`, after any finite sequence of `CreateUser`, `FundUserAccount` with `amount > 0` and
`TransferToAccount` with `amount > 0` and distinct identifiers, run one at a time, every stored
balance is still a non-negative `int64`, provided no credit of the sequence overflows: each
funded account and each transfer recipient is found with `balance + amount < 2^63`. -/
theorem runOps_nonNegative (ops : List Op) (c : Client) (hc : c.healthy)
    (hn : nonNegative c.table) (hv : ∀ op ∈ ops, op.valid)
    (hfit : creditsFit ops c = true) :
    nonNegative (runOps ops c).table := by
  induction ops generalizing c with
  | nil => exact hn
  | cons op ops ih =>
    unfold creditsFit at hfit
    rw [Bool.and_eq_true] at hfit
    obtain ⟨hh, hn1⟩ := Op.run_nonNegative op c hc hn (hv op (List.mem_cons_self _ _)) hfit.1
    exact ih (op.run c) hh hn1 (fun o ho => hv o (List.mem_cons_of_mem _ ho)) hfit.2

/-- C9: create alice and bob, fund alice with 100, transfer 30 to bob: alice 70, bob 30. -/
theorem runOps_nonNegative_witness :
    nonNegative (runOps modestOps emptyStore).table ∧
    (runOps modestOps emptyStore).table = [alice 70, bob 30] :=
  ⟨runOps_nonNegative modestOps emptyStore (by decide) (by decide) (by decide) (by decide),
   by decide⟩

/-- C9 as stated fails when a credit overflows `int64`: from the empty healthy store, create
alice, fund her with `2^63 - 1`, fund her with 1 (every amount positive, every call
successful, one at a time): her stored balance is then `-2^63`. -/
theorem runOps_overflow_negative :
    emptyStore.healthy ∧ nonNegative emptyStore.table ∧
    (∀ op ∈ overflowingOps, op.valid) ∧
    (runOps overflowingOps emptyStore).table = [alice (-(2 ^ 63))] ∧
    ¬ (∀ u ∈ (runOps overflowingOps emptyStore).table, 0 ≤ u.Balance) := by
  decide

/-! ## The fetch goroutines after an early return -/

/-- When the identifier of goroutine `w` has no record, a move from an undrained state leads
to an undrained state and leaves the table as it is. -/
theorem undrained_step {w : Bool} {m : Move} {k k' : Call} {c c' : Client}
    (habs : lookup c.table (k.email w) = none) (hu : undrained w k = true)
    (hstep : k.step m c = some (k', c')) :
    undrained w k' = true ∧ c'.table = c.table ∧ k'.email w = k.email w := by
  obtain ⟨s, r, amount, coord, ts, tr⟩ := k
  unfold Call.step at hstep
  simp only at hstep
  split at hstep
  · -- the sender's goroutine fetches
    have hsame := fetchUserWithChannel_sameStore s c
    cases hf : fetchUserWithChannel s c with
    | mk f c1 =>
      obtain ⟨e, u⟩ := f
      rw [hf] at hstep hsame
      simp only [Option.some.injEq, Prod.mk.injEq] at hstep
      obtain ⟨rfl, rfl⟩ := hstep
      refine ⟨?_, hsame.1, by cases w <;> rfl⟩
      cases w
      · cases coord <;> simp_all [undrained, Call.task, Task.failing, Task.pending,
          Task.onUserChan, Task.isDone]
      · obtain ⟨e', u', c2, hf'⟩ := fetchUserWithChannel_none c habs
        simp only [Call.email, if_true] at hf'
        rw [hf] at hf'
        simp only [Prod.mk.injEq] at hf'
        obtain ⟨⟨rfl, rfl⟩, rfl⟩ := hf'
        cases coord <;> simp_all [undrained, Call.task, Task.failing, Task.pending,
          Task.onUserChan, Task.isDone]
  · -- the recipient's goroutine fetches
    have hsame := fetchUserWithChannel_sameStore r c
    cases hf : fetchUserWithChannel r c with
    | mk f c1 =>
      obtain ⟨e, u⟩ := f
      rw [hf] at hstep hsame
      simp only [Option.some.injEq, Prod.mk.injEq] at hstep
      obtain ⟨rfl, rfl⟩ := hstep
      refine ⟨?_, hsame.1, by cases w <;> rfl⟩
      cases w
      · obtain ⟨e', u', c2, hf'⟩ := fetchUserWithChannel_none c habs
        simp only [Call.email, Bool.false_eq_true, if_false] at hf'
        rw [hf] at hf'
        simp only [Prod.mk.injEq] at hf'
        obtain ⟨⟨rfl, rfl⟩, rfl⟩ := hf'
        cases coord <;> simp_all [undrained, Call.task, Task.failing, Task.pending,
          Task.onUserChan, Task.isDone]
      · cases coord <;> simp_all [undrained, Call.task, Task.failing, Task.pending,
          Task.onUserChan, Task.isDone]
  · -- the coordinator receives the error of the sender's goroutine
    rename_i i err user
    simp only [Option.some.injEq, Prod.mk.injEq] at hstep
    obtain ⟨rfl, rfl⟩ := hstep
    refine ⟨?_, rfl, by cases w <;> rfl⟩
    cases w <;> cases err <;> cases tr <;>
      match i with
      | 0 => simp_all [undrained, Call.task, Task.failing, Task.pending, Task.onUserChan,
          Task.isDone, afterErr]
      | 1 => simp_all [undrained, Call.task, Task.failing, Task.pending, Task.onUserChan,
          Task.isDone, afterErr]
      | (n + 2) => simp_all [undrained, Call.task, Task.failing, Task.pending,
          Task.onUserChan, Task.isDone, afterErr]
  · -- the coordinator receives the error of the recipient's goroutine
    rename_i i err user
    simp only [Option.some.injEq, Prod.mk.injEq] at hstep
    obtain ⟨rfl, rfl⟩ := hstep
    refine ⟨?_, rfl, by cases w <;> rfl⟩
    cases w <;> cases err <;> cases ts <;>
      match i with
      | 0 => simp_all [undrained, Call.task, Task.failing, Task.pending, Task.onUserChan,
          Task.isDone, afterErr]
      | 1 => simp_all [undrained, Call.task, Task.failing, Task.pending, Task.onUserChan,
          Task.isDone, afterErr]
      | (n + 2) => simp_all [undrained, Call.task, Task.failing, Task.pending,
          Task.onUserChan, Task.isDone, afterErr]
  all_goals first
    | (simp [undrained] at hu; done)
    | simp at hstep

theorem undrained_run {w : Bool} (ms : List Move) {k k' : Call} {c c' : Client}
    (habs : lookup c.table (k.email w) = none) (hu : undrained w k = true)
    (hrun : Call.run ms k c = some (k', c')) :
    undrained w k' = true ∧ c'.table = c.table := by
  induction ms generalizing k c with
  | nil =>
    simp only [Call.run, Option.some.injEq, Prod.mk.injEq] at hrun
    obtain ⟨rfl, rfl⟩ := hrun
    exact ⟨hu, rfl⟩
  | cons m ms ih =>
    unfold Call.run at hrun
    cases hs : k.step m c with
    | none => rw [hs] at hrun; simp at hrun
    | some kc =>
      obtain ⟨k1, c1⟩ := kc
      rw [hs] at hrun
      simp only at hrun
      obtain ⟨hu1, ht1, he1⟩ := undrained_step habs hu hs
      obtain ⟨hu2, ht2⟩ := ih (by rw [ht1, he1]; exact habs) hu1 hrun
      exact ⟨hu2, ht2.trans ht1⟩

theorem undrained_not_done {w : Bool} {k : Call} (hu : undrained w k = true) :
    k.senderTask ≠ .done ∧ k.recipientTask ≠ .done := by
  obtain ⟨s, r, amount, coord, ts, tr⟩ := k
  unfold undrained at hu
  cases w <;> cases ts <;> cases tr <;> (split at hu) <;>
    simp_all [Call.task, Task.failing, Task.pending, Task.onUserChan, Task.isDone]

/-- C8, refuted on the code. When the sender or the recipient of a transfer has no record, in
every run of the call, whatever the schedule and the store failures, neither fetch goroutine
ever returns: the coordinator leaves the error loop at the first non-nil error without
receiving from the user channels, or never gets there. The table is untouched. -/
theorem fetch_goroutines_never_drained (s r : String) (amount : Int) (c : Client)
    (habs : lookup c.table s = none ∨ lookup c.table r = none) (ms : List Move)
    (k' : Call) (c' : Client) (hrun : Call.run ms (Call.init s r amount) c = some (k', c')) :
    k'.senderTask ≠ .done ∧ k'.recipientTask ≠ .done ∧ c'.table = c.table := by
  rcases habs with h | h
  · have hu : undrained true (Call.init s r amount) = true := rfl
    have habs : lookup c.table ((Call.init s r amount).email true) = none := h
    obtain ⟨hu', ht⟩ := undrained_run ms habs hu hrun
    exact ⟨(undrained_not_done hu').1, (undrained_not_done hu').2, ht⟩
  · have hu : undrained false (Call.init s r amount) = true := rfl
    have habs : lookup c.table ((Call.init s r amount).email false) = none := h
    obtain ⟨hu', ht⟩ := undrained_run ms habs hu hrun
    exact ⟨(undrained_not_done hu').1, (undrained_not_done hu').2, ht⟩

/-- C8: a transfer to bob from an identifier with no record. After both fetches, the
recipient's nil error and the sender's not-found error, the coordinator has returned the
error, both goroutines are blocked on the send to their user channel, and no move is left. -/
theorem fetch_goroutines_never_drained_witness :
    Call.run [.fetch true, .fetch false, .err false, .err true]
      (Call.init "dave@x.io" "bob@x.io" 30) (ledger 100 50) = some (abortedCall, ledger 100 50) ∧
    (abortedCall.senderTask ≠ .done ∧ abortedCall.recipientTask ≠ .done ∧
      (ledger 100 50).table = (ledger 100 50).table) ∧
    abortedCall.step (.fetch true) (ledger 100 50) = none ∧
    abortedCall.step (.fetch false) (ledger 100 50) = none ∧
    abortedCall.step (.err true) (ledger 100 50) = none ∧
    abortedCall.step (.err false) (ledger 100 50) = none ∧
    abortedCall.step (.user true) (ledger 100 50) = none ∧
    abortedCall.step (.user false) (ledger 100 50) = none ∧
    abortedCall.step .store (ledger 100 50) = none :=
  ⟨by decide,
   fetch_goroutines_never_drained "dave@x.io" "bob@x.io" 30 (ledger 100 50)
     (Or.inl (by decide)) [.fetch true, .fetch false, .err false, .err true]
     abortedCall (ledger 100 50) (by decide),
   by decide, by decide, by decide, by decide, by decide, by decide, by decide⟩

/-! ## Two interleaved transfers from one sender -/

theorem senderTaskOk_mono {s : String} {b : Bool} {t : Task} (h : senderTaskOk s false t) :
    senderTaskOk s b t := by
  cases t <;> simp_all [senderTaskOk]

theorem recipientTaskOk_mono {s : String} {b : Bool} {t : Task}
    (h : recipientTaskOk s false t) : recipientTaskOk s b t := by
  cases t <;> simp_all [recipientTaskOk]

theorem updateGet_table {u : User} {c c' : Client} {r : Option String}
    (h : updateGet u c = (r, c')) : c'.table = c.table := by
  have hs := FetchUser_sameStore u.Email c
  unfold updateGet at h
  split at h
  · rename_i heq; rw [heq] at hs
    simp only [Prod.mk.injEq] at h
    rw [← h.2]; exact hs.1
  · rename_i heq; rw [heq] at hs
    split at h <;> simp only [Prod.mk.injEq] at h <;> rw [← h.2] <;> exact hs.1

theorem StoreInv_of_table {s : String} {c c' : Client} (h : StoreInv s c)
    (ht : c'.table = c.table) : StoreInv s c' := by
  intro u hu
  rw [ht] at hu
  exact h u hu

theorem StoreInv_put {s : String} {c c' : Client} {item : User} {res : Option String}
    (h : StoreInv s c) (hp : c.PutItem item = (res, c'))
    (hi : goodSender s item ∨ item.Email ≠ s) : StoreInv s c' := by
  cases res with
  | some e => exact StoreInv_of_table h (PutItem_error hp).1
  | none =>
    intro u hu
    rw [(PutItem_ok hp).1] at hu
    rcases hi with hg | hne
    · rw [← hg.1, lookup_store_self] at hu
      cases hu
      exact hg.2
    · rw [lookup_store_other _ _ _ hne] at hu
      exact h u hu

/-- A move of a call that satisfies its invariant preserves the invariant of the call and of
the store. -/
theorem CallInv_step {s : String} {m : Move} {k k' : Call} {c c' : Client}
    (hk : CallInv s k) (hc : StoreInv s c) (hstep : k.step m c = some (k', c')) :
    CallInv s k' ∧ StoreInv s c' := by
  obtain ⟨se, r, amount, coord, ts, tr⟩ := k
  obtain ⟨hse, hre, hpos, hts, htr, hco⟩ := hk
  simp only at hse hre hpos hts htr hco
  subst hse
  unfold Call.step at hstep
  simp only at hstep
  split at hstep
  · -- the sender's goroutine fetches
    have hsame := fetchUserWithChannel_sameStore se c
    cases hf : fetchUserWithChannel se c with
    | mk f c1 =>
      obtain ⟨e, u⟩ := f
      rw [hf] at hstep hsame
      simp only [Option.some.injEq, Prod.mk.injEq] at hstep
      obtain ⟨rfl, rfl⟩ := hstep
      refine ⟨⟨rfl, hre, hpos, ?_, htr, hco⟩, StoreInv_of_table hc hsame.1⟩
      intro he
      subst he
      obtain ⟨u', hu', hl, _, _⟩ := fetchUserWithChannel_nil hf
      exact ⟨u', hu', lookup_email hl, hc u' hl⟩
  · -- the recipient's goroutine fetches
    have hsame := fetchUserWithChannel_sameStore r c
    cases hf : fetchUserWithChannel r c with
    | mk f c1 =>
      obtain ⟨e, u⟩ := f
      rw [hf] at hstep hsame
      simp only [Option.some.injEq, Prod.mk.injEq] at hstep
      obtain ⟨rfl, rfl⟩ := hstep
      refine ⟨⟨rfl, hre, hpos, hts, ?_, hco⟩, StoreInv_of_table hc hsame.1⟩
      intro he
      subst he
      obtain ⟨u', hu', hl, _, _⟩ := fetchUserWithChannel_nil hf
      exact ⟨u', hu', by rw [lookup_email hl]; exact hre⟩
  · -- the coordinator receives the sender's error
    rename_i i err user
    simp only [Option.some.injEq, Prod.mk.injEq] at hstep
    obtain ⟨rfl, rfl⟩ := hstep
    refine ⟨⟨rfl, hre, hpos, ?_, recipientTaskOk_mono htr, ?_⟩, hc⟩
    · cases err with
      | some e => exact Or.inl rfl
      | none => exact Or.inr (hts rfl)
    · cases err with
      | some e => trivial
      | none => unfold afterErr; simp only; split <;> trivial
  · -- the coordinator receives the recipient's error
    rename_i i err user
    simp only [Option.some.injEq, Prod.mk.injEq] at hstep
    obtain ⟨rfl, rfl⟩ := hstep
    refine ⟨⟨rfl, hre, hpos, senderTaskOk_mono hts, ?_, ?_⟩, hc⟩
    · cases err with
      | some e => exact Or.inl rfl
      | none => exact Or.inr (htr rfl)
    · cases err with
      | some e => trivial
      | none => unfold afterErr; simp only; split <;> trivial
  · -- the coordinator receives the sender's record
    rename_i user
    simp only [Option.some.injEq, Prod.mk.injEq] at hstep
    obtain ⟨rfl, rfl⟩ := hstep
    refine ⟨⟨rfl, hre, hpos, trivial, htr, ?_⟩, hc⟩
    rcases hts with h | h
    · simp [Coord.isReturned] at h
    · exact h
  · -- the coordinator receives the recipient's record and checks the balance
    rename_i senderUser user
    simp only [Option.some.injEq, Prod.mk.injEq] at hstep
    obtain ⟨rfl, rfl⟩ := hstep
    obtain ⟨su, rfl, hg⟩ := hco
    rcases htr with h | ⟨ru, rfl, hru⟩
    · simp [Coord.isReturned] at h
    · refine ⟨⟨rfl, hre, hpos, senderTaskOk_mono hts, trivial, ?_⟩, hc⟩
      unfold afterUsers
      simp only
      split
      · trivial
      · rename_i hnlt
        have hd : (debited su amount).Balance = su.Balance - amount :=
          debit_exact ⟨by have := hg.2.1; omega, hg.2.2⟩ hpos hnlt
        refine ⟨⟨hg.1, ?_, ?_⟩, hru⟩
        · rw [hd]; omega
        · rw [hd]; have := hg.2.2; omega
  · -- `UpdateUser` of the sender: the fetch
    rename_i senderUser recipientUser
    cases hg : updateGet senderUser c with
    | mk res c1 =>
      have ht := updateGet_table hg
      rw [hg] at hstep
      cases res <;> simp only [Option.some.injEq, Prod.mk.injEq] at hstep <;>
        obtain ⟨rfl, rfl⟩ := hstep
      · exact ⟨⟨rfl, hre, hpos, senderTaskOk_mono hts, recipientTaskOk_mono htr, hco⟩,
          StoreInv_of_table hc ht⟩
      · exact ⟨⟨rfl, hre, hpos, senderTaskOk_mono hts, recipientTaskOk_mono htr, trivial⟩,
          StoreInv_of_table hc ht⟩
  · -- `UpdateUser` of the sender: the write
    rename_i senderUser recipientUser
    cases hp : c.PutItem senderUser with
    | mk res c1 =>
      have hst := StoreInv_put hc hp (Or.inl hco.1)
      rw [hp] at hstep
      cases res <;> simp only [Option.some.injEq, Prod.mk.injEq] at hstep <;>
        obtain ⟨rfl, rfl⟩ := hstep
      · exact ⟨⟨rfl, hre, hpos, senderTaskOk_mono hts, recipientTaskOk_mono htr, hco.2⟩,
          hst⟩
      · exact ⟨⟨rfl, hre, hpos, senderTaskOk_mono hts, recipientTaskOk_mono htr, trivial⟩,
          hst⟩
  · -- `UpdateUser` of the recipient: the fetch
    rename_i recipientUser
    cases hg : updateGet recipientUser c with
    | mk res c1 =>
      have ht := updateGet_table hg
      rw [hg] at hstep
      cases res <;> simp only [Option.some.injEq, Prod.mk.injEq] at hstep <;>
        obtain ⟨rfl, rfl⟩ := hstep
      · exact ⟨⟨rfl, hre, hpos, senderTaskOk_mono hts, recipientTaskOk_mono htr, hco⟩,
          StoreInv_of_table hc ht⟩
      · exact ⟨⟨rfl, hre, hpos, senderTaskOk_mono hts, recipientTaskOk_mono htr, trivial⟩,
          StoreInv_of_table hc ht⟩
  · -- `UpdateUser` of the recipient: the write
    rename_i recipientUser
    cases hp : c.PutItem recipientUser with
    | mk res c1 =>
      have hst := StoreInv_put hc hp (Or.inr hco)
      rw [hp] at hstep
      cases res <;> simp only [Option.some.injEq, Prod.mk.injEq] at hstep <;>
        obtain ⟨rfl, rfl⟩ := hstep
      · exact ⟨⟨rfl, hre, hpos, senderTaskOk_mono hts, recipientTaskOk_mono htr, trivial⟩,
          hst⟩
      · exact ⟨⟨rfl, hre, hpos, senderTaskOk_mono hts, recipientTaskOk_mono htr, trivial⟩,
          hst⟩
  · simp at hstep

theorem CallInv_init {s r : String} {amount : Int} (hne : r ≠ s) (hpos : 0 < amount) :
    CallInv s (Call.init s r amount) :=
  ⟨rfl, hne, hpos, trivial, trivial, trivial⟩

theorem Pair_step_inv {s : String} {w : Bool} {m : Move} {p p' : Pair}
    (h1 : CallInv s p.first) (h2 : CallInv s p.second) (hc : StoreInv s p.client)
    (hstep : p.step w m = some p') :
    CallInv s p'.first ∧ CallInv s p'.second ∧ StoreInv s p'.client := by
  unfold Pair.step at hstep
  cases w with
  | true =>
    simp only [if_true] at hstep
    cases hs : p.first.step m p.client with
    | none => rw [hs] at hstep; simp at hstep
    | some kc =>
      obtain ⟨k, c⟩ := kc
      rw [hs] at hstep
      simp only [Option.some.injEq] at hstep
      subst hstep
      obtain ⟨hk, hst⟩ := CallInv_step h1 hc hs
      exact ⟨hk, h2, hst⟩
  | false =>
    simp only [Bool.false_eq_true, if_false] at hstep
    cases hs : p.second.step m p.client with
    | none => rw [hs] at hstep; simp at hstep
    | some kc =>
      obtain ⟨k, c⟩ := kc
      rw [hs] at hstep
      simp only [Option.some.injEq] at hstep
      subst hstep
      obtain ⟨hk, hst⟩ := CallInv_step h2 hc hs
      exact ⟨h1, hk, hst⟩

theorem Pair_run_inv {s : String} (ms : List (Bool × Move)) {p p' : Pair}
    (h1 : CallInv s p.first) (h2 : CallInv s p.second) (hc : StoreInv s p.client)
    (hrun : Pair.run ms p = some p') : StoreInv s p'.client := by
  induction ms generalizing p with
  | nil =>
    simp only [Pair.run, Option.some.injEq] at hrun
    subst hrun
    exact hc
  | cons wm ms ih =>
    obtain ⟨w, m⟩ := wm
    unfold Pair.run at hrun
    cases hs : p.step w m with
    | none => rw [hs] at hrun; simp at hrun
    | some p1 =>
      rw [hs] at hrun
      simp only at hrun
      obtain ⟨k1, k2, hst⟩ := Pair_step_inv h1 h2 hc hs
      exact ih k1 k2 hst hrun

/-- Two calls from `s` with positive amounts to accounts other than `s`, started on a store
where the balance of `s` is a non-negative `int64`: whatever the interleaving and the store
failures, the balance stored under `s` is never negative. -/
theorem sender_balance_never_negative {s r1 r2 : String} {A B : Int} {c : Client}
    (hc : StoreInv s c) (hA : 0 < A) (hB : 0 < B) (h1 : r1 ≠ s) (h2 : r2 ≠ s)
    (ms : List (Bool × Move)) {p : Pair}
    (hrun : Pair.run ms ⟨Call.init s r1 A, Call.init s r2 B, c⟩ = some p) {u : User}
    (hu : lookup p.client.table s = some u) : 0 ≤ u.Balance :=
  (Pair_run_inv ms (CallInv_init h1 hA) (CallInv_init h2 hB) hc hrun u hu).1

/-- C7 as stated fails. A transfer goes to an account other than the sender; for such
transfers there is no store, sender balance, amounts `A, B > 0` with `A ≤ balance`,
`B ≤ balance`, `A + B > balance` and interleaving of the moves of two `TransferToAccount`
calls from that sender, with or without store failures, in which both calls return no error
and the sender's stored balance ends below 0. -/
theorem no_interleaving_overdraws :
    ¬ ∃ (c : Client) (s r1 r2 : String) (su : User) (A B : Int)
        (ms : List (Bool × Move)) (p : Pair) (u : User),
      lookup c.table s = some su ∧ isInt64 su.Balance ∧ r1 ≠ s ∧ r2 ≠ s ∧
      0 < A ∧ 0 < B ∧ A ≤ su.Balance ∧ B ≤ su.Balance ∧ su.Balance < A + B ∧
      Pair.run ms ⟨Call.init s r1 A, Call.init s r2 B, c⟩ = some p ∧
      p.first.coord = .returned none ∧ p.second.coord = .returned none ∧
      lookup p.client.table s = some u ∧ u.Balance < 0 := by
  rintro ⟨c, s, r1, r2, su, A, B, ms, p, u, hl, hi, h1, h2, hA, hB, hAle, _, _, hrun, _, _,
    hu, hneg⟩
  have hc : StoreInv s c := by
    intro v hv
    rw [hl] at hv
    cases hv
    exact ⟨by omega, hi.2⟩
  have := sender_balance_never_negative hc hA hB h1 h2 ms hrun hu
  omega

/-- C7, amended. On the store alice 100, bob 0, carol 0, with `A = 60` to bob and `B = 70`
to carol (`A ≤ 100`, `B ≤ 100`, `A + B > 100`), there is an interleaving of the two calls in
which both fetch before either writes: both return no error and the sender's stored balance
ends at `100 - 70 = 30`, the debit of 60 being overwritten, while bob holds 60 and carol 70.
In no interleaving of two calls from one sender to accounts other than the sender, whatever
the store failures, is the sender's stored balance below 0. -/
theorem stale_reads_lose_a_debit :
    Pair.run staleReads
        ⟨Call.init "alice@x.io" "bob@x.io" 60, Call.init "alice@x.io" "carol@x.io" 70,
          trio 100 0 0⟩
      = some ⟨⟨"alice@x.io", "bob@x.io", 60, .returned none, .done, .done⟩,
          ⟨"alice@x.io", "carol@x.io", 70, .returned none, .done, .done⟩,
          ⟨[alice 30, bob 60, carol 70], [], 4⟩⟩ ∧
    total [alice 30, bob 60, carol 70] = total (trio 100 0 0).table + 60 ∧
    ∀ (c : Client) (s r1 r2 : String) (su : User) (A B : Int) (ms : List (Bool × Move))
      (p : Pair) (u : User),
      lookup c.table s = some su → isInt64 su.Balance → r1 ≠ s → r2 ≠ s →
      0 < A → 0 < B → A ≤ su.Balance → B ≤ su.Balance →
      Pair.run ms ⟨Call.init s r1 A, Call.init s r2 B, c⟩ = some p →
      lookup p.client.table s = some u → 0 ≤ u.Balance := by
  refine ⟨by decide, by decide, ?_⟩
  intro c s r1 r2 su A B ms p u hl hi h1 h2 hA hB hAle _ hrun hu
  have hc : StoreInv s c := by
    intro v hv
    rw [hl] at hv
    cases hv
    exact ⟨by omega, hi.2⟩
  exact sender_balance_never_negative hc hA hB h1 h2 ms hrun hu

/-- C7: in the interleaving of the scenario, the sender's stored balance, 30, is not
negative. -/
theorem stale_reads_lose_a_debit_witness : 0 ≤ (alice 30).Balance :=
  stale_reads_lose_a_debit.2.2 (trio 100 0 0) "alice@x.io" "bob@x.io" "carol@x.io"
    (alice 100) 60 70 staleReads
    ⟨⟨"alice@x.io", "bob@x.io", 60, .returned none, .done, .done⟩,
      ⟨"alice@x.io", "carol@x.io", 70, .returned none, .done, .done⟩,
      ⟨[alice 30, bob 60, carol 70], [], 4⟩⟩
    (alice 30) (by decide) (by decide) (by decide) (by decide) (by decide) (by decide)
    (by decide) (by decide) (by decide) (by decide)

/-! ## The step model agrees with `TransferToAccount` -/

theorem fetchUserWithChannel_errOf (k : String) (c : Client) (h : c.healthy) :
    ∃ c', fetchUserWithChannel k c = ((errOf c.table k, userOf c.table k), c') ∧
      sameStore c c' ∧ c'.healthy := by
  obtain ⟨c1, hf, hs, hh⟩ := FetchUser_healthy k c h
  refine ⟨c1, ?_, hs, hh⟩
  unfold fetchUserWithChannel errOf userOf
  rw [hf]
  simp only
  split <;> rfl

theorem errOf_some {t : List User} {k : String} {e : String} (h : errOf t k = some e) :
    e = notFound k ∧ (lookup t k = none ∨ k = "") := by
  unfold errOf at h
  split at h
  · rename_i he
    simp only [Option.some.injEq] at h
    refine ⟨h.symm, ?_⟩
    cases hl : lookup t k with
    | none => exact Or.inl rfl
    | some u =>
      right
      rw [hl] at he
      have := (String.isEmpty_iff _).1 he
      rw [← lookup_email hl]; exact this
  · simp at h

theorem errOf_none {t : List User} {k : String} (h : errOf t k = none) :
    ∃ u, lookup t k = some u ∧ userOf t k = some u ∧ k ≠ "" := by
  unfold errOf at h
  split at h
  · simp at h
  · rename_i he
    have he' : ((lookup t k).getD User.zero).Email.isEmpty = false := by simpa using he
    obtain ⟨hl, hk⟩ := getD_nonempty he'
    exact ⟨_, hl, rfl, hk⟩

theorem updateGet_healthy {u w : User} (c : Client) (h : c.healthy)
    (hl : lookup c.table u.Email = some w) (hk : u.Email ≠ "") :
    ∃ c', updateGet u c = (none, c') ∧ sameStore c c' ∧ c'.healthy := by
  obtain ⟨c1, hf, hs, hh⟩ := FetchUser_healthy u.Email c h
  have hw : w.Email.isEmpty = false := by
    rw [lookup_email hl]; exact isEmpty_eq_false hk
  exact ⟨c1, by simp [updateGet, hf, hl, hw], hs, hh⟩

/-- On a healthy store every move of a call leads from a sound state to a sound state. -/
theorem Sound_step {t : List User} {s r : String} {amount : Int} {m : Move} {k k' : Call}
    {c c' : Client} (hk : Sound t s r amount k c) (hstep : k.step m c = some (k', c')) :
    Sound t s r amount k' c' := by
  obtain ⟨se, re, am, coord, ts, tr⟩ := k
  obtain ⟨hh, hse, hre, ham, hco⟩ := hk
  simp only at hse hre ham hco
  subst hse hre ham
  unfold Call.step at hstep
  simp only at hstep
  split at hstep
  · -- the sender's goroutine fetches
    obtain ⟨c1, hf, hs, hh1⟩ := fetchUserWithChannel_errOf se c hh
    rw [hf] at hstep
    simp only [Option.some.injEq, Prod.mk.injEq] at hstep
    obtain ⟨rfl, rfl⟩ := hstep
    refine ⟨hh1, rfl, rfl, rfl, ?_⟩
    simp only
    cases coord with
    | recvErr i =>
      match i with
      | 0 =>
        obtain ⟨ht, _, h2⟩ := hco
        exact ⟨by rw [hs.1, ht], Or.inr (by rw [ht]), h2⟩
      | 1 =>
        obtain ⟨ht, h⟩ := hco
        refine ⟨by rw [hs.1, ht], ?_⟩
        rcases h with ⟨_, h2, _⟩ | ⟨h1, h2, _⟩
        · simp at h2
        · exact Or.inr ⟨h1, h2, Or.inr (by rw [ht])⟩
      | (n + 2) => exact hco.elim
    | recvSender => simp at hco
    | recvRecipient su =>
      obtain ⟨ht, h1, h2, h3, h4⟩ := hco
      exact ⟨by rw [hs.1, ht], h1, h2, h3, h4⟩
    | updSenderGet su' ru' => exact ⟨by rw [hs.1, hco.1], hco.2⟩
    | updSenderPut su' ru' => exact ⟨by rw [hs.1, hco.1], hco.2⟩
    | updRecipientGet ru' =>
      obtain ⟨su', ht, h⟩ := hco
      exact ⟨su', by rw [hs.1, ht], h⟩
    | updRecipientPut ru' =>
      obtain ⟨su', ht, h⟩ := hco
      exact ⟨su', by rw [hs.1, ht], h⟩
    | returned res =>
      show Outcome _ _ _ _ _ c1.table
      rw [hs.1]; exact hco
  · -- the recipient's goroutine fetches
    obtain ⟨c1, hf, hs, hh1⟩ := fetchUserWithChannel_errOf re c hh
    rw [hf] at hstep
    simp only [Option.some.injEq, Prod.mk.injEq] at hstep
    obtain ⟨rfl, rfl⟩ := hstep
    refine ⟨hh1, rfl, rfl, rfl, ?_⟩
    simp only
    cases coord with
    | recvErr i =>
      match i with
      | 0 =>
        obtain ⟨ht, h1, _⟩ := hco
        exact ⟨by rw [hs.1, ht], h1, Or.inr (by rw [ht])⟩
      | 1 =>
        obtain ⟨ht, h⟩ := hco
        refine ⟨by rw [hs.1, ht], ?_⟩
        rcases h with ⟨h1, h2, _⟩ | ⟨_, h2, _⟩
        · exact Or.inl ⟨h1, h2, Or.inr (by rw [ht])⟩
        · simp at h2
      | (n + 2) => exact hco.elim
    | recvSender => simp at hco
    | recvRecipient su => simp at hco
    | updSenderGet su' ru' => exact ⟨by rw [hs.1, hco.1], hco.2⟩
    | updSenderPut su' ru' => exact ⟨by rw [hs.1, hco.1], hco.2⟩
    | updRecipientGet ru' =>
      obtain ⟨su', ht, h⟩ := hco
      exact ⟨su', by rw [hs.1, ht], h⟩
    | updRecipientPut ru' =>
      obtain ⟨su', ht, h⟩ := hco
      exact ⟨su', by rw [hs.1, ht], h⟩
    | returned res =>
      show Outcome _ _ _ _ _ c1.table
      rw [hs.1]; exact hco
  · -- the coordinator receives the sender's error
    rename_i i err user
    simp only [Option.some.injEq, Prod.mk.injEq] at hstep
    obtain ⟨rfl, rfl⟩ := hstep
    refine ⟨hh, rfl, rfl, rfl, ?_⟩
    simp only
    match i with
    | 0 =>
      obtain ⟨ht, h1, h2⟩ := hco
      rcases h1 with h1 | h1
      · simp at h1
      · simp only [Task.sendErr.injEq] at h1
        obtain ⟨rfl, rfl⟩ := h1
        cases he : errOf t se with
        | some e =>
          obtain ⟨rfl, habs⟩ := errOf_some he
          exact Or.inl ⟨se, Or.inl rfl, habs, rfl, ht⟩
        | none => exact ⟨ht, Or.inl ⟨rfl, rfl, h2⟩⟩
    | 1 =>
      obtain ⟨ht, h⟩ := hco
      rcases h with ⟨_, h2, _⟩ | ⟨h1, h2, h3⟩
      · simp at h2
      · rcases h3 with h3 | h3
        · simp at h3
        · simp only [Task.sendErr.injEq] at h3
          obtain ⟨rfl, rfl⟩ := h3
          cases he : errOf t se with
          | some e =>
            obtain ⟨rfl, habs⟩ := errOf_some he
            exact Or.inl ⟨se, Or.inl rfl, habs, rfl, ht⟩
          | none => exact ⟨ht, rfl, h1, rfl, h2⟩
    | (n + 2) => exact hco.elim
  · -- the coordinator receives the recipient's error
    rename_i i err user
    simp only [Option.some.injEq, Prod.mk.injEq] at hstep
    obtain ⟨rfl, rfl⟩ := hstep
    refine ⟨hh, rfl, rfl, rfl, ?_⟩
    simp only
    match i with
    | 0 =>
      obtain ⟨ht, h1, h2⟩ := hco
      rcases h2 with h2 | h2
      · simp at h2
      · simp only [Task.sendErr.injEq] at h2
        obtain ⟨rfl, rfl⟩ := h2
        cases he : errOf t re with
        | some e =>
          obtain ⟨rfl, habs⟩ := errOf_some he
          exact Or.inl ⟨re, Or.inr rfl, habs, rfl, ht⟩
        | none => exact ⟨ht, Or.inr ⟨rfl, rfl, h1⟩⟩
    | 1 =>
      obtain ⟨ht, h⟩ := hco
      rcases h with ⟨h1, h2, h3⟩ | ⟨_, h2, _⟩
      · rcases h3 with h3 | h3
        · simp at h3
        · simp only [Task.sendErr.injEq] at h3
          obtain ⟨rfl, rfl⟩ := h3
          cases he : errOf t re with
          | some e =>
            obtain ⟨rfl, habs⟩ := errOf_some he
            exact Or.inl ⟨re, Or.inr rfl, habs, rfl, ht⟩
          | none => exact ⟨ht, h1, rfl, h2, rfl⟩
      · simp at h2
    | (n + 2) => exact hco.elim
  · -- the coordinator receives the sender's record
    rename_i user
    simp only [Option.some.injEq, Prod.mk.injEq] at hstep
    obtain ⟨rfl, rfl⟩ := hstep
    obtain ⟨ht, h1, h2, h3, h4⟩ := hco
    simp only [Task.sendUser.injEq] at h3
    exact ⟨hh, rfl, rfl, rfl, ht, h1, h2, h3, h4⟩
  · -- the coordinator receives the recipient's record and checks the balance
    rename_i senderUser user
    simp only [Option.some.injEq, Prod.mk.injEq] at hstep
    obtain ⟨rfl, rfl⟩ := hstep
    obtain ⟨ht, h1, h2, h3, h4⟩ := hco
    simp only [Task.sendUser.injEq] at h4
    subst h3 h4
    obtain ⟨su, hls, hus, hks⟩ := errOf_none h1
    obtain ⟨ru, hlr, hur, hkr⟩ := errOf_none h2
    refine ⟨hh, rfl, rfl, rfl, ?_⟩
    simp only [hus, hur, afterUsers]
    by_cases hlt : su.Balance < am
    · rw [if_pos hlt]
      exact Or.inr (Or.inl ⟨su, ru, hls, hlr, hks, hkr, hlt, rfl, ht⟩)
    · rw [if_neg hlt]
      exact ⟨ht, su, ru, hls, hlr, hks, hkr, hlt, rfl, rfl⟩
  · -- `UpdateUser` of the sender: the fetch
    rename_i su' ru'
    obtain ⟨ht, su, ru, hls, hlr, hks, hkr, hlt, rfl, rfl⟩ := hco
    have hes := lookup_email hls
    have hl : lookup c.table (debited su am).Email = some su := by
      show lookup c.table su.Email = some su
      rw [ht, hes]; exact hls
    obtain ⟨c1, hg, hs, hh1⟩ := updateGet_healthy c hh hl
      (by show su.Email ≠ ""; rw [hes]; exact hks)
    rw [hg] at hstep
    simp only [Option.some.injEq, Prod.mk.injEq] at hstep
    obtain ⟨rfl, rfl⟩ := hstep
    exact ⟨hh1, rfl, rfl, rfl, by rw [hs.1, ht], su, ru, hls, hlr, hks, hkr, hlt, rfl, rfl⟩
  · -- `UpdateUser` of the sender: the write
    rename_i su' ru'
    obtain ⟨ht, hchk⟩ := hco
    obtain ⟨c1, hp, ht1, _, hh1⟩ := PutItem_healthy c su' hh
    rw [hp] at hstep
    simp only [Option.some.injEq, Prod.mk.injEq] at hstep
    obtain ⟨rfl, rfl⟩ := hstep
    exact ⟨hh1, rfl, rfl, rfl, su', by rw [ht1, ht], hchk⟩
  · -- `UpdateUser` of the recipient: the fetch
    rename_i ru'
    obtain ⟨su', ht, su, ru, hls, hlr, hks, hkr, hlt, rfl, rfl⟩ := hco
    have her := lookup_email hlr
    have hl : ∃ w, lookup c.table (credited ru am).Email = some w := by
      show ∃ w, lookup c.table ru.Email = some w
      rw [ht, her]
      by_cases he : (debited su am).Email = re
      · exact ⟨_, by rw [← he]; exact lookup_store_self _ _⟩
      · exact ⟨ru, by rw [lookup_store_other _ _ _ he]; exact hlr⟩
    obtain ⟨w, hw⟩ := hl
    obtain ⟨c1, hg, hs, hh1⟩ := updateGet_healthy c hh hw
      (by show ru.Email ≠ ""; rw [her]; exact hkr)
    rw [hg] at hstep
    simp only [Option.some.injEq, Prod.mk.injEq] at hstep
    obtain ⟨rfl, rfl⟩ := hstep
    exact ⟨hh1, rfl, rfl, rfl, debited su am, by rw [hs.1, ht], su, ru, hls, hlr, hks, hkr, hlt,
      rfl, rfl⟩
  · -- `UpdateUser` of the recipient: the write
    rename_i ru'
    obtain ⟨su', ht, su, ru, hls, hlr, hks, hkr, hlt, rfl, rfl⟩ := hco
    obtain ⟨c1, hp, ht1, _, hh1⟩ := PutItem_healthy c (credited ru am) hh
    rw [hp] at hstep
    simp only [Option.some.injEq, Prod.mk.injEq] at hstep
    obtain ⟨rfl, rfl⟩ := hstep
    refine ⟨hh1, rfl, rfl, rfl, ?_⟩
    exact Or.inr (Or.inr ⟨su, ru, hls, hlr, hks, hkr, hlt, rfl, by rw [ht1, ht]⟩)
  · simp at hstep

/-- Every run of a call on a healthy store leads to a sound state. -/
theorem Sound_run {t : List User} {s r : String} {amount : Int} (ms : List Move)
    {k k' : Call} {c c' : Client} (hk : Sound t s r amount k c)
    (hrun : Call.run ms k c = some (k', c')) : Sound t s r amount k' c' := by
  induction ms generalizing k c with
  | nil =>
    simp only [Call.run, Option.some.injEq, Prod.mk.injEq] at hrun
    obtain ⟨rfl, rfl⟩ := hrun
    exact hk
  | cons m ms ih =>
    unfold Call.run at hrun
    cases hs : k.step m c with
    | none => rw [hs] at hrun; simp at hrun
    | some kc =>
      obtain ⟨k1, c1⟩ := kc
      rw [hs] at hrun
      exact ih (Sound_step hk hs) hrun

/-- On a healthy store, when the coordinator first receives the error of a goroutine whose
identifier is absent, the transfer returns the not-found error of that identifier. -/
theorem TransferToAccount_first_error (sched : Sched) (s r : String) (amount : Int)
    (c : Client) (hc : c.healthy) (k : String)
    (hk : (sched.senderErrFirst = true ∧ k = s) ∨ (sched.senderErrFirst = false ∧ k = r))
    (habs : lookup c.table k = none ∨ k = "") :
    (TransferToAccount sched s r amount c).1 = some (notFound k) ∧
    (TransferToAccount sched s r amount c).2.table = c.table := by
  obtain ⟨fs, fr, c1, hf, hs1, _, hrs, hrr⟩ := fetchBoth_healthy sched s r c hc
  have hcontra : ∀ {u : User}, lookup c.table k = some u → k ≠ "" → False := by
    intro u hl hne
    rcases habs with h | h
    · rw [hl] at h; simp at h
    · exact hne h
  unfold TransferToAccount
  rw [hf]
  rcases hk with ⟨hb, rfl⟩ | ⟨hb, rfl⟩
  · rcases hrs with ⟨u, _, hl, hne⟩ | ⟨u, rfl, _⟩
    · exact (hcontra hl hne).elim
    · simp [hb, hs1.1]
  · rcases hrr with ⟨u, _, hl, hne⟩ | ⟨u, rfl, _⟩
    · exact (hcontra hl hne).elim
    · simp [hb, hs1.1]

/-- The step model agrees with `TransferToAccount`. On a healthy store, whatever the
schedule of the goroutines, a run of the call in which the coordinator has returned `res` left
the table that `TransferToAccount` leaves, with the result `res`, under some resolution of
the two races. -/
theorem Call_run_agrees (s r : String) (amount : Int) (c : Client) (hc : c.healthy)
    (ms : List Move) (k' : Call) (c' : Client) (res : Option String)
    (hrun : Call.run ms (Call.init s r amount) c = some (k', c'))
    (hret : k'.coord = .returned res) :
    ∃ sched, (TransferToAccount sched s r amount c).1 = res ∧
      (TransferToAccount sched s r amount c).2.table = c'.table := by
  have h0 : Sound c.table s r amount (Call.init s r amount) c :=
    ⟨hc, rfl, rfl, rfl, rfl, Or.inl rfl, Or.inl rfl⟩
  obtain ⟨_, _, _, _, hco⟩ := Sound_run ms h0 hrun
  rw [hret] at hco
  simp only at hco
  rcases hco with ⟨k, hk, habs, rfl, ht⟩ | ⟨su, ru, hls, hlr, hks, hkr, hlt, rfl, ht⟩ |
      ⟨su, ru, hls, hlr, hks, hkr, hlt, rfl, ht⟩
  · rcases hk with rfl | rfl
    · obtain ⟨h1, h2⟩ := TransferToAccount_first_error ⟨true, true⟩ k r amount c hc k
        (Or.inl ⟨rfl, rfl⟩) habs
      exact ⟨⟨true, true⟩, h1, by rw [h2, ht]⟩
    · obtain ⟨h1, h2⟩ := TransferToAccount_first_error ⟨true, false⟩ s k amount c hc k
        (Or.inr ⟨rfl, rfl⟩) habs
      exact ⟨⟨true, false⟩, h1, by rw [h2, ht]⟩
  · obtain ⟨res, c2, hT, _, hcase⟩ :=
      TransferToAccount_healthy ⟨true, true⟩ s r amount c hc
    refine ⟨⟨true, true⟩, ?_⟩
    rw [hT]
    rcases hcase with ⟨k, hk, habs, _, _⟩ | ⟨_, _, _, _, _, _, _, hres, hsame⟩ |
        ⟨su1, _, hs1, _, _, _, hnlt, _, _, _⟩
    · rcases hk with rfl | rfl
      · rcases habs with h | h
        · rw [hls] at h; simp at h
        · exact absurd h hks
      · rcases habs with h | h
        · rw [hlr] at h; simp at h
        · exact absurd h hkr
    · exact ⟨hres, by rw [hsame.1, ht]⟩
    · rw [hls] at hs1; cases hs1; exact absurd hlt hnlt
  · obtain ⟨res, c2, hT, _, hcase⟩ :=
      TransferToAccount_healthy ⟨true, true⟩ s r amount c hc
    refine ⟨⟨true, true⟩, ?_⟩
    rw [hT]
    rcases hcase with ⟨k, hk, habs, _, _⟩ | ⟨su1, _, hs1, _, _, _, hlt1, _, _⟩ |
        ⟨su1, ru1, hs1, hr1, _, _, _, hres, htab, _⟩
    · rcases hk with rfl | rfl
      · rcases habs with h | h
        · rw [hls] at h; simp at h
        · exact absurd h hks
      · rcases habs with h | h
        · rw [hlr] at h; simp at h
        · exact absurd h hkr
    · rw [hls] at hs1; cases hs1; exact absurd hlt1 hlt
    · rw [hls] at hs1; rw [hlr] at hr1; cases hs1; cases hr1
      exact ⟨hres.symm ▸ rfl, by rw [htab, ht]⟩

/-- The run of the scenario alice 100, bob 50, amount 30 in which the recipient's goroutine
fetches and reports first agrees with `TransferToAccount` under some schedule. -/
theorem Call_run_agrees_witness :
    ∃ sched, (TransferToAccount sched "alice@x.io" "bob@x.io" 30 (ledger 100 50)).1 = none ∧
      (TransferToAccount sched "alice@x.io" "bob@x.io" 30 (ledger 100 50)).2.table
        = [alice 70, bob 80] :=
  Call_run_agrees "alice@x.io" "bob@x.io" 30 (ledger 100 50) (by decide)
    [.fetch false, .fetch true, .err false, .err true, .user true, .user false,
      .store, .store, .store, .store]
    ⟨"alice@x.io", "bob@x.io", 30, .returned none, .done, .done⟩
    ⟨[alice 70, bob 80], [], 2⟩ none (by decide) rfl

theorem errOf_absent {t : List User} {k : String} (h : lookup t k = none ∨ k = "") :
    errOf t k = some (notFound k) := by
  unfold errOf
  have : ((lookup t k).getD User.zero).Email.isEmpty = true := by
    cases hl : lookup t k with
    | none => decide
    | some u =>
      rcases h with h | h
      · rw [hl] at h; simp at h
      · simp only [Option.getD_some]
        rw [lookup_email hl, h]; decide
  rw [if_pos this]

theorem errOf_present {t : List User} {k : String} {u : User} (h : lookup t k = some u)
    (hk : k ≠ "") : errOf t k = none ∧ userOf t k = some u := by
  unfold errOf userOf
  rw [h]
  simp only [Option.getD_some]
  have : u.Email.isEmpty = false := by rw [lookup_email h]; exact isEmpty_eq_false hk
  simp [this]

/-- A run followed by a run is a run. -/
theorem Call.run_append (ms ns : List Move) (k : Call) (c : Client) :
    Call.run (ms ++ ns) k c = match Call.run ms k c with
      | none => none
      | some (k1, c1) => Call.run ns k1 c1 := by
  induction ms generalizing k c with
  | nil => rfl
  | cons m ms ih =>
    simp only [List.cons_append, Call.run]
    cases k.step m c with
    | none => rfl
    | some kc => exact ih kc.1 kc.2

/-- On a healthy store the two goroutines can fetch, sender first, without touching the
table. -/
theorem run_fetches (s r : String) (amount : Int) (c : Client) (hc : c.healthy) :
    ∃ c2, Call.run [.fetch true, .fetch false] (Call.init s r amount) c
      = some (⟨s, r, amount, .recvErr 0, .sendErr (errOf c.table s) (userOf c.table s),
          .sendErr (errOf c.table r) (userOf c.table r)⟩, c2) ∧
      sameStore c c2 ∧ c2.healthy := by
  obtain ⟨c1, h1, hs1, hh1⟩ := fetchUserWithChannel_errOf s c hc
  obtain ⟨c2, h2, hs2, hh2⟩ := fetchUserWithChannel_errOf r c1 hh1
  refine ⟨c2, ?_, sameStore_trans hs1 hs2, hh2⟩
  rw [hs1.1] at h2
  simp [Call.run, Call.step, Call.init, h1, h2]

/-- Every outcome of `TransferToAccount` on a healthy store is the outcome of a run of the
step model: the function model has no behaviour of its own. -/
theorem TransferToAccount_realised (sched : Sched) (s r : String) (amount : Int) (c : Client)
    (hc : c.healthy) :
    ∃ ms k' c', Call.run ms (Call.init s r amount) c = some (k', c') ∧
      k'.coord = .returned (TransferToAccount sched s r amount c).1 ∧
      c'.table = (TransferToAccount sched s r amount c).2.table := by
  obtain ⟨res, cT, hT, _, hcase⟩ := TransferToAccount_healthy sched s r amount c hc
  obtain ⟨c2, hrun, hs2, hh2⟩ := run_fetches s r amount c hc
  rw [hT]
  rcases hcase with ⟨k, hk, habs, rfl, hsame⟩ | ⟨su, ru, hls, hlr, hks, hkr, hlt, rfl, hsame⟩ |
      ⟨su, ru, hls, hlr, hks, hkr, hlt, rfl, htab, _⟩
  · have he := errOf_absent habs
    rcases hk with rfl | rfl
    · refine ⟨[.fetch true, .fetch false] ++ [.err true],
        ⟨k, r, amount, .returned (some (notFound k)), .sendUser (userOf c.table k),
          .sendErr (errOf c.table r) (userOf c.table r)⟩, c2, ?_, rfl,
        by rw [hs2.1, hsame.1]⟩
      rw [Call.run_append, hrun]
      simp [Call.run, Call.step, afterErr, he]
    · refine ⟨[.fetch true, .fetch false] ++ [.err false],
        ⟨s, k, amount, .returned (some (notFound k)),
          .sendErr (errOf c.table s) (userOf c.table s), .sendUser (userOf c.table k)⟩, c2,
        ?_, rfl, by rw [hs2.1, hsame.1]⟩
      rw [Call.run_append, hrun]
      simp [Call.run, Call.step, afterErr, he]
  · obtain ⟨hes, hus⟩ := errOf_present hls hks
    obtain ⟨her, hur⟩ := errOf_present hlr hkr
    refine ⟨[.fetch true, .fetch false] ++ [.err true, .err false, .user true, .user false],
      ⟨s, r, amount, .returned (some ErrInsufficientBalance), .done, .done⟩, c2, ?_, rfl,
      by rw [hs2.1, hsame.1]⟩
    rw [Call.run_append, hrun]
    simp [Call.run, Call.step, afterErr, afterUsers, hes, hus, her, hur, hlt]
  · obtain ⟨hes, hus⟩ := errOf_present hls hks
    obtain ⟨her, hur⟩ := errOf_present hlr hkr
    have hse := lookup_email hls
    have hre := lookup_email hlr
    have hl3 : lookup c2.table (debited su amount).Email = some su := by
      show lookup c2.table su.Email = some su
      rw [hs2.1, hse]; exact hls
    obtain ⟨c3, hg3, hs3, hh3⟩ := updateGet_healthy c2 hh2 hl3
      (by show su.Email ≠ ""; rw [hse]; exact hks)
    obtain ⟨c4, hp4, ht4, _, hh4⟩ := PutItem_healthy c3 (debited su amount) hh3
    have hl5 : ∃ w, lookup c4.table (credited ru amount).Email = some w := by
      show ∃ w, lookup c4.table ru.Email = some w
      rw [ht4, hs3.1, hs2.1, hre]
      by_cases he : (debited su amount).Email = r
      · exact ⟨_, by rw [← he]; exact lookup_store_self _ _⟩
      · exact ⟨ru, by rw [lookup_store_other _ _ _ he]; exact hlr⟩
    obtain ⟨w, hw⟩ := hl5
    obtain ⟨c5, hg5, hs5, hh5⟩ := updateGet_healthy c4 hh4 hw
      (by show ru.Email ≠ ""; rw [hre]; exact hkr)
    obtain ⟨c6, hp6, ht6, _, _⟩ := PutItem_healthy c5 (credited ru amount) hh5
    refine ⟨[.fetch true, .fetch false] ++ [.err true, .err false, .user true, .user false,
      .store, .store, .store, .store], ⟨s, r, amount, .returned none, .done, .done⟩, c6, ?_,
      rfl, by rw [ht6, hs5.1, ht4, hs3.1, hs2.1, htab]⟩
    rw [Call.run_append, hrun]
    simp [Call.run, Call.step, afterErr, afterUsers, hes, hus, her, hur, hlt, hg3, hp4, hg5,
      hp6]

/-- The overflowing transfer of 1 from alice, balance 1, to bob, balance `2^63 - 1`, is the
outcome of a run of the step model. -/
theorem TransferToAccount_realised_witness :
    ∃ ms k' c', Call.run ms (Call.init "alice@x.io" "bob@x.io" 1) (ledger 1 (2 ^ 63 - 1))
        = some (k', c') ∧
      k'.coord = .returned
        (TransferToAccount ⟨true, true⟩ "alice@x.io" "bob@x.io" 1 (ledger 1 (2 ^ 63 - 1))).1 ∧
      c'.table
        = (TransferToAccount ⟨true, true⟩ "alice@x.io" "bob@x.io" 1
            (ledger 1 (2 ^ 63 - 1))).2.table :=
  TransferToAccount_realised ⟨true, true⟩ "alice@x.io" "bob@x.io" 1 (ledger 1 (2 ^ 63 - 1))
    (by decide)

end Banking
